import Mathlib

/-!
# Freestyle extended winged edge (`WXEdge.cpp`): smooth-edge construction

A shallow embedding of `WXFaceLayer::Get0VertexIndex`, `GetSmoothEdgeIndex`,
`RetrieveCuspEdgesIndices`, `BuildSmoothEdge` and `WXFace::ComputeCenter`.

Conventions of the embedding

* A `float` value is the exact rational it denotes (`ℚ`); the entries of `_DotP` stand for
  finite binary32 values. The comparisons `== 0.0f` and `> 0.0f` of a stored value are exact.
  Where the code compares the result of a `float` operation with zero, the embedding follows
  IEEE 754 binary32 with rounding to nearest, ties to even: a product is negative as a
  `float` exactly when its exact value is below `-2^-150` (`floatMulNeg`), and a sum has the
  sign of its exact value, the literal `0.01f` being `5368709 / 2^29` (`FLT_0_01`). The
  values of the quotients `ta`, `tb` and of the face centre are the exact ones, which the
  code rounds to a nearby `float`.
* `uint` is a natural number below `2^32`, `int` is an integer; the conversions between the
  two that the source performs implicitly are written out (`toInt`, `toUInt`).
* Behaviour the C++ standard leaves undefined (reading a `vector` outside its bounds, `%` or
  `/` with a zero right operand) is the outcome `none` of the outer `Option`.
* A half-edge (`WOEdge *`) of a face is identified by its position in the face's edge list.
-/

namespace Freestyle

/-- Largest `unsigned int`; the value of `-1` converted to `uint`. -/
def UINT_MAX : Nat := 4294967295

/-- Conversion `uint → int` (two's complement). -/
def toInt (u : Nat) : Int := if u < 2147483648 then (u : Int) else (u : Int) - 4294967296

/-- Conversion `int → uint` (reduction modulo `2^32`). -/
def toUInt (z : Int) : Nat := (z % 4294967296).toNat

/-- Modelled from the spec: the class `Vec3f` (declared outside this source file), a vector of
three coordinates. -/
structure Vec3f where
  x : ℚ
  y : ℚ
  z : ℚ
  deriving DecidableEq

/-- Modelled from the spec: the value of a default-constructed `Vec3f`. The constructor is
declared outside this source file; it is taken to zero every coordinate, which is what makes
the loop of `ComputeCenter` the "component-wise sum" of the spec. -/
def Vec3f.zero : Vec3f := ⟨0, 0, 0⟩

/-- Modelled from the spec: operator `+=` of `Vec3f` (declared outside this source file),
the component-wise sum. -/
def Vec3f.add (a b : Vec3f) : Vec3f := ⟨a.x + b.x, a.y + b.y, a.z + b.z⟩

/-- Modelled from the spec: operator `/=` of `Vec3f` by a scalar (declared outside this
source file), the component-wise quotient; dividing by zero has no value. -/
def Vec3f.div (a : Vec3f) (s : ℚ) : Option Vec3f :=
  if s = 0 then none else some ⟨a.x / s, a.y / s, a.z / s⟩

/-- Modelled from the spec: the class `WXFace` (declared in `WXEdge.h`, outside this source
file), reduced to what the functions below read or write: the positions of the vertices in
the order `RetrieveVertexList` yields them, `numberOfEdges()`, `front()` and the stored
centre set by `setCenter`. -/
structure WXFace where
  vertices : List Vec3f
  numberOfEdges : Nat
  front : Bool
  center : Vec3f
  deriving DecidableEq

/-- Modelled from the spec: `GetOEdge(i)` (declared outside this source file), the half-edge
at position `i` of the face's edge list, here the position itself; a position outside the
list has no value. -/
def WXFace.GetOEdge (F : WXFace) (i : Nat) : Option Nat :=
  if i < F.numberOfEdges then some i else none

/-- Modelled from the spec: the class `WXSmoothEdge` (declared in `WXEdge.h`, outside this
source file): the two half-edges, the two interpolation parameters and the front flag.
`front = none` records that `setFront` was not called on the freshly allocated edge. -/
structure WXSmoothEdge where
  woea : Nat
  woeb : Nat
  ta : ℚ
  tb : ℚ
  front : Option Bool
  deriving DecidableEq

/-- Modelled from the spec: the fields of the class `WXFaceLayer` (declared in `WXEdge.h`,
outside this source file) that the member functions below use: the face it belongs to, the
per-edge values `_DotP`, the counters `_nPosDotP` and `_nNullDotP`, the nature bit set,
`_ClosestPointIndex` and the owned smooth edge `_pSmoothEdge` (`none` is the null pointer). -/
structure WXFaceLayer where
  pWXFace : WXFace
  DotP : List ℚ
  nPosDotP : Nat
  nNullDotP : Nat
  Nature : Nat
  ClosestPointIndex : Nat
  pSmoothEdge : Option WXSmoothEdge
  deriving DecidableEq

/-- Loop of `Get0VertexIndex` with `k` iterations left and loop variable `i`:
`for (; i < nEdges; ++i) if (_DotP[i] == 0.0f) return i;` followed by `return -1`. -/
def Get0VertexIndexLoop (DotP : List ℚ) : Nat → Nat → Option Nat
  | 0, _ => some UINT_MAX
  | k + 1, i =>
    match DotP[i]? with
    | none => none
    | some a => if a = 0 then some i else Get0VertexIndexLoop DotP k (i + 1)

/-- `WXFaceLayer::Get0VertexIndex`. -/
def WXFaceLayer.Get0VertexIndex (L : WXFaceLayer) : Option Nat :=
  Get0VertexIndexLoop L.DotP L.pWXFace.numberOfEdges 0

/-- Loop of `GetSmoothEdgeIndex` with `k` iterations left and loop variable `i`; the second
operand of `&&` is read only when the first test succeeds. -/
def GetSmoothEdgeIndexLoop (DotP : List ℚ) (nEdges : Nat) : Nat → Nat → Option Nat
  | 0, _ => some UINT_MAX
  | k + 1, i =>
    match DotP[i]? with
    | none => none
    | some a =>
      if a = 0 then
        match DotP[(i + 1) % nEdges]? with
        | none => none
        | some b => if b = 0 then some i else GetSmoothEdgeIndexLoop DotP nEdges k (i + 1)
      else GetSmoothEdgeIndexLoop DotP nEdges k (i + 1)

/-- `WXFaceLayer::GetSmoothEdgeIndex`. -/
def WXFaceLayer.GetSmoothEdgeIndex (L : WXFaceLayer) : Option Nat :=
  GetSmoothEdgeIndexLoop L.DotP L.pWXFace.numberOfEdges L.pWXFace.numberOfEdges 0

/-- Half of the smallest positive binary32 value `2^-149`: an exact product of magnitude at
most `2^-150` is rounded (to nearest, ties to even) to a zero. -/
def FLT_UNDERFLOW : ℚ := 1 / 2 ^ 150

/-- The test `x * y < 0.0f` on two `float` values. The product is rounded to a `float`
before the comparison: it is a negative `float` (possibly `-inf`) exactly when the exact
product is below `-2^-150`; a negative product of smaller magnitude becomes `-0.0f`, which
is not below `0.0f`. -/
def floatMulNeg (a b : ℚ) : Bool := decide (a * b < -FLT_UNDERFLOW)

/-- The literal `0.01f`: the binary32 value nearest to `1/100`, which is `10737418 * 2^-30`. -/
def FLT_0_01 : ℚ := 5368709 / 536870912

/-- Loop of `RetrieveCuspEdgesIndices` with `k` iterations left, loop variable `i` and the
output vector `out` filled so far. The test is the `float` test `floatMulNeg`. -/
def RetrieveCuspEdgesIndicesLoop (DotP : List ℚ) (nEdges : Nat) :
    Nat → Nat → List Nat → Option (List Nat)
  | 0, _, out => some out
  | k + 1, i, out =>
    match DotP[i]?, DotP[(i + 1) % nEdges]? with
    | some a, some b =>
      if floatMulNeg a b then RetrieveCuspEdgesIndicesLoop DotP nEdges k (i + 1) (out ++ [i])
      else RetrieveCuspEdgesIndicesLoop DotP nEdges k (i + 1) out
    | _, _ => none

/-- `WXFaceLayer::RetrieveCuspEdgesIndices(oCuspEdges)`: the vector after the call. -/
def WXFaceLayer.RetrieveCuspEdgesIndices (L : WXFaceLayer) (oCuspEdges : List Nat) :
    Option (List Nat) :=
  RetrieveCuspEdgesIndicesLoop L.DotP L.pWXFace.numberOfEdges L.pWXFace.numberOfEdges 0
    oCuspEdges

/-- The interpolation `_DotP[i] / (_DotP[i] - _DotP[(i + 1) % nedges])`. -/
def interpolate (DotP : List ℚ) (nedges i : Nat) : Option ℚ :=
  if nedges = 0 then none
  else
    match DotP[i]?, DotP[(i + 1) % nedges]? with
    | some a, some b => if a - b = 0 then none else some (a / (a - b))
    | _, _ => none

/-- The tail of `BuildSmoothEdge` when `ok` is true: allocate the edge, set its fields and,
for a silhouette layer outside the two-zero case, its front flag; return it. The test
`_DotP[_ClosestPointIndex] + 0.01f > 0.0f` adds the `float` literal; a `float` sum of two
finite values is zero only when the exact sum is, so the test is the one on the exact sum. -/
def finishSmoothEdge (SILHOUETTE : Nat) (L : WXFaceLayer) (woea woeb : Nat) (ta tb : ℚ) :
    Option (Option WXSmoothEdge × WXFaceLayer) :=
  if L.Nature &&& SILHOUETTE ≠ 0 ∧ L.nNullDotP ≠ 2 then
    match L.DotP[L.ClosestPointIndex]? with
    | none => none
    | some d =>
      let e : WXSmoothEdge := ⟨woea, woeb, ta, tb, some (decide (d + FLT_0_01 > 0))⟩
      some (some e, { L with pSmoothEdge := some e })
  else
    let e : WXSmoothEdge := ⟨woea, woeb, ta, tb, none⟩
    some (some e, { L with pSmoothEdge := some e })

/-- `WXFaceLayer::BuildSmoothEdge`. The result pairs the returned pointer with the layer
after the call. `SILHOUETTE` is the bit mask `Nature::SILHOUETTE`, a constant declared
outside this source file; the macro `ELEM(v, a, b)` is `v == a || v == b`. -/
def WXFaceLayer.BuildSmoothEdge (SILHOUETTE : Nat) (L : WXFaceLayer) :
    Option (Option WXSmoothEdge × WXFaceLayer) :=
  match L.pSmoothEdge with
  | some e => some (some e, L)
  | none =>
    let nedges := L.pWXFace.numberOfEdges
    if L.nNullDotP = nedges then some (none, L)
    else if L.nPosDotP ≠ 0 ∧ L.nPosDotP ≠ L.DotP.length ∧ L.nNullDotP = 0 then
      match L.RetrieveCuspEdgesIndices [] with
      | none => none
      | some [c0, c1] =>
        match L.DotP[c0]? with
        | none => none
        | some d =>
          let indexStart := if d > 0 then c0 else c1
          let indexEnd := if d > 0 then c1 else c0
          match L.pWXFace.GetOEdge indexStart, L.pWXFace.GetOEdge indexEnd,
            interpolate L.DotP nedges indexStart, interpolate L.DotP nedges indexEnd with
          | some woea, some woeb, some ta, some tb => finishSmoothEdge SILHOUETTE L woea woeb ta tb
          | _, _, _, _ => none
      | some _ => some (none, L)
    else if L.nNullDotP = 1 then
      if L.nPosDotP = 2 ∨ L.nPosDotP = 0 then some (none, L)
      else
        match L.RetrieveCuspEdgesIndices [] with
        | none => none
        | some [c] =>
          match L.Get0VertexIndex, L.DotP[c]? with
          | some index0, some d =>
            if d > 0 then
              match L.pWXFace.GetOEdge c, L.pWXFace.GetOEdge index0,
                interpolate L.DotP nedges c with
              | some woea, some woeb, some ta => finishSmoothEdge SILHOUETTE L woea woeb ta 0
              | _, _, _ => none
            else
              match L.pWXFace.GetOEdge index0, L.pWXFace.GetOEdge c,
                interpolate L.DotP nedges c with
              | some woea, some woeb, some tb => finishSmoothEdge SILHOUETTE L woea woeb 0 tb
              | _, _, _ => none
          | _, _ => none
        | some _ => some (none, L)
    else if L.nNullDotP = 2 then
      match L.GetSmoothEdgeIndex with
      | none => none
      | some r =>
        let index : Int := toInt r
        if L.pWXFace.front = false then
          if nedges = 0 then none
          else
            match L.pWXFace.GetOEdge (toUInt (index + 1) % nedges),
              L.pWXFace.GetOEdge (toUInt (index - 1) % nedges) with
            | some woea, some woeb => finishSmoothEdge SILHOUETTE L woea woeb 0 1
            | _, _ => none
        else some (none, L)
    else some (none, L)

/-- `WXFace::ComputeCenter`: the face after the call. -/
def WXFace.ComputeCenter (F : WXFace) : Option WXFace :=
  let iVertexList := F.vertices
  let center := iVertexList.foldl Vec3f.add Vec3f.zero
  match center.div (iVertexList.length : ℚ) with
  | none => none
  | some c => some { F with center := c }

/-- Number of strictly positive entries of `DotP`. -/
def countPos (DotP : List ℚ) : Nat := DotP.countP (fun d => decide (0 < d))

/-- Number of entries of `DotP` equal to zero. -/
def countNull (DotP : List ℚ) : Nat := DotP.countP (fun d => decide (d = 0))

/-- Largest `int`. -/
def INT_MAX : Nat := 2147483647

/-- Test of `RetrieveCuspEdgesIndices` at edge `i`: the `float` product of the values at the
two ends of the edge is negative. -/
def isCuspEdge (DotP : List ℚ) (n i : Nat) : Bool :=
  floatMulNeg (DotP.getD i 0) (DotP.getD ((i + 1) % n) 0)

/-- No product of cyclically adjacent entries underflows: whenever the exact product of
`DotP[i]` and `DotP[(i+1) mod n]` is negative it is below `-2^-150`, so that the `float`
product is negative too. -/
def NoUnderflow (DotP : List ℚ) (n : Nat) : Prop :=
  ∀ i, i < n → DotP.getD i 0 * DotP.getD ((i + 1) % n) 0 < 0 →
    DotP.getD i 0 * DotP.getD ((i + 1) % n) 0 < -FLT_UNDERFLOW

/-- A layer as the mesh builder and the view-dependent evaluator leave it: one `_DotP` entry
per edge of the face, an edge count that fits an `int`, counters that agree with `_DotP`,
and a closest-point index that designates an entry of `_DotP`. -/
structure WXFaceLayer.Consistent (L : WXFaceLayer) : Prop where
  length_eq : L.DotP.length = L.pWXFace.numberOfEdges
  edges_le : L.pWXFace.numberOfEdges ≤ INT_MAX
  nPos_eq : L.nPosDotP = countPos L.DotP
  nNull_eq : L.nNullDotP = countNull L.DotP
  closest_lt : L.ClosestPointIndex < L.DotP.length

/-- The value `t` is the quotient `DotP[i] / (DotP[i] - DotP[(i+1) mod n])` at some edge
`i` of the face where the divisor is not zero, and it lies in `[0, 1]`. -/
def interpolatedAt (D : List ℚ) (n : Nat) (t : ℚ) : Prop :=
  ∃ i, i < n ∧ D.getD i 0 - D.getD ((i + 1) % n) 0 ≠ 0 ∧
    t = D.getD i 0 / (D.getD i 0 - D.getD ((i + 1) % n) 0) ∧ 0 ≤ t ∧ t ≤ 1

/-! ## Example faces and layers -/

/-- Triangle with vertices `(0,0,0)`, `(2,0,0)`, `(0,2,0)`, back-facing, centre not yet
computed. -/
def exTriangle : WXFace :=
  { vertices := [⟨0, 0, 0⟩, ⟨2, 0, 0⟩, ⟨0, 2, 0⟩], numberOfEdges := 3, front := false,
    center := Vec3f.zero }

/-- Unit square, back-facing. -/
def exQuad : WXFace :=
  { vertices := [⟨0, 0, 0⟩, ⟨1, 0, 0⟩, ⟨1, 1, 0⟩, ⟨0, 1, 0⟩], numberOfEdges := 4,
    front := false, center := Vec3f.zero }

/-- Silhouette layer on the triangle with `DotP = [0, 0, 1]`: one edge lies on the
boundary. -/
def exEdgeOnBoundary : WXFaceLayer :=
  { pWXFace := exTriangle, DotP := [0, 0, 1], nPosDotP := 1, nNullDotP := 2, Nature := 1,
    ClosestPointIndex := 0, pSmoothEdge := none }

/-- Silhouette layer on the square with `DotP = [1, 0, -1, 1/2]`. -/
def exOneNullQuad : WXFaceLayer :=
  { pWXFace := exQuad, DotP := [1, 0, -1, 1 / 2], nPosDotP := 2, nNullDotP := 1, Nature := 1,
    ClosestPointIndex := 0, pSmoothEdge := none }

/-- Silhouette layer on the square with `DotP = [1, -1, -1, 1]`. -/
def exTwoCrossings : WXFaceLayer :=
  { pWXFace := exQuad, DotP := [1, -1, -1, 1], nPosDotP := 2, nNullDotP := 0, Nature := 1,
    ClosestPointIndex := 0, pSmoothEdge := none }

/-- The triangle of `exTriangle`, front-facing. -/
def exTriangleFront : WXFace :=
  { vertices := [⟨0, 0, 0⟩, ⟨2, 0, 0⟩, ⟨0, 2, 0⟩], numberOfEdges := 3, front := true,
    center := Vec3f.zero }

/-- Silhouette layer on the triangle with `DotP = [0, 0, 0]`. -/
def exAllZero : WXFaceLayer :=
  { pWXFace := exTriangle, DotP := [0, 0, 0], nPosDotP := 0, nNullDotP := 3, Nature := 1,
    ClosestPointIndex := 0, pSmoothEdge := none }

/-- Silhouette layer on the front-facing triangle with `DotP = [0, 0, 1]`. -/
def exFrontEdgeOnBoundary : WXFaceLayer :=
  { pWXFace := exTriangleFront, DotP := [0, 0, 1], nPosDotP := 1, nNullDotP := 2, Nature := 1,
    ClosestPointIndex := 0, pSmoothEdge := none }

/-- Silhouette layer on the square with `DotP = [0, 0, 0, 1]`: three zeros out of four. -/
def exThreeNull : WXFaceLayer :=
  { pWXFace := exQuad, DotP := [0, 0, 0, 1], nPosDotP := 1, nNullDotP := 3, Nature := 1,
    ClosestPointIndex := 0, pSmoothEdge := none }

/-- Silhouette layer on the square with `DotP = [0, 1, 0, -1]`: the two zeros sit at
opposite corners. -/
def exOppositeZeros : WXFaceLayer :=
  { pWXFace := exQuad, DotP := [0, 1, 0, -1], nPosDotP := 1, nNullDotP := 2, Nature := 1,
    ClosestPointIndex := 0, pSmoothEdge := none }

/-- Silhouette layer on the square with `DotP = [1, -1, 1, -1]`: four sign changes. -/
def exFourCrossings : WXFaceLayer :=
  { pWXFace := exQuad, DotP := [1, -1, 1, -1], nPosDotP := 2, nNullDotP := 0, Nature := 1,
    ClosestPointIndex := 0, pSmoothEdge := none }

/-! ## Face construction -/

/-- `WXShape::MakeFace(iVertexList, iFaceEdgeMarksList, iMaterialIndex)`. The vertices are
given by their positions. `base` is the base-class `WShape::MakeFace` with the same
arguments, which is not part of this source file: it returns the new face or null (`none`),
and is taken to leave `iVertexList` as it is. The outer `none` is the division of the sum by
a zero count. -/
def WXShape.MakeFace (base : List Vec3f → List Bool → Nat → Option WXFace)
    (iVertexList : List Vec3f) (iFaceEdgeMarksList : List Bool) (iMaterialIndex : Nat) :
    Option (Option WXFace) :=
  match base iVertexList iFaceEdgeMarksList iMaterialIndex with
  | none => some none
  | some face =>
    let center := iVertexList.foldl Vec3f.add Vec3f.zero
    match center.div (iVertexList.length : ℚ) with
    | none => none
    | some c => some (some { face with center := c })

/-- Modelled from the spec: the base-class `WShape::MakeFace` with per-vertex normals and
texture coordinates, which is not part of this source file. The spec says that the centre
computation is "invoked once at face-construction time for each face-construction entry
point" and calls the disabled recomputation in the overriding function "a duplicate/dead
code path ... redundant": the base construction of this entry point builds the face through
the three-argument `MakeFace` of the shape (`makeFace`, a virtual member) and then attaches
the normals and texture coordinates, which the face model here does not carry. -/
def WShape.MakeFaceWithNormals
    (makeFace : List Vec3f → List Bool → Nat → Option (Option WXFace))
    (iVertexList : List Vec3f) (_iNormalsList : List Vec3f) (_iTexCoordsList : List (ℚ × ℚ))
    (iFaceEdgeMarksList : List Bool) (iMaterialIndex : Nat) : Option (Option WXFace) :=
  makeFace iVertexList iFaceEdgeMarksList iMaterialIndex

/-- `WXShape::MakeFace(iVertexList, iNormalsList, iTexCoordsList, iFaceEdgeMarksList,
iMaterialIndex)`: it returns what the base-class function returns; the centre computation
in its own body is compiled out (`#if 0`). The three-argument `MakeFace` the base class
reaches on a `WXShape` is the override `WXShape.MakeFace`. -/
def WXShape.MakeFaceWithNormals (base : List Vec3f → List Bool → Nat → Option WXFace)
    (iVertexList : List Vec3f) (iNormalsList : List Vec3f) (iTexCoordsList : List (ℚ × ℚ))
    (iFaceEdgeMarksList : List Bool) (iMaterialIndex : Nat) : Option (Option WXFace) :=
  WShape.MakeFaceWithNormals (WXShape.MakeFace base) iVertexList iNormalsList iTexCoordsList
    iFaceEdgeMarksList iMaterialIndex

/-- A base construction that accepts every vertex list with at least three vertices and
rejects the others. -/
def exBaseMakeFace (iVertexList : List Vec3f) (_marks : List Bool) (_material : Nat) :
    Option WXFace :=
  if 3 ≤ iVertexList.length then
    some { vertices := iVertexList, numberOfEdges := iVertexList.length, front := false,
           center := Vec3f.zero }
  else none

/-- Hexagon, back-facing. -/
def exHexagon : WXFace :=
  { vertices := [⟨1, 0, 0⟩, ⟨2, 0, 0⟩, ⟨3, 1, 0⟩, ⟨2, 2, 0⟩, ⟨1, 2, 0⟩, ⟨0, 1, 0⟩],
    numberOfEdges := 6, front := false, center := Vec3f.zero }

/-- Silhouette layer on the triangle with `DotP = [2^-100, -2^-100, -2^-100]`: the two
products of opposite-sign neighbours are `-2^-200`, which underflows. -/
def exUnderflowTriangle : WXFaceLayer :=
  { pWXFace := exTriangle, DotP := [1 / 2 ^ 100, -(1 / 2 ^ 100), -(1 / 2 ^ 100)],
    nPosDotP := 1, nNullDotP := 0, Nature := 1, ClosestPointIndex := 0, pSmoothEdge := none }

/-- Silhouette layer on the triangle with `DotP = [2^-100, -2^-100, 1]`: of its two sign
changes only the one at edge `1` survives the `float` product. -/
def exUnderflowOdd : WXFaceLayer :=
  { pWXFace := exTriangle, DotP := [1 / 2 ^ 100, -(1 / 2 ^ 100), 1],
    nPosDotP := 2, nNullDotP := 0, Nature := 1, ClosestPointIndex := 0, pSmoothEdge := none }

/-- Silhouette layer on the hexagon with
`DotP = [1, -2^-100, 2^-100, 1, -2^-100, 2^-100]`: four sign changes, of which the `float`
product reports those at edges `0` and `3`. -/
def exUnderflowHexagon : WXFaceLayer :=
  { pWXFace := exHexagon,
    DotP := [1, -(1 / 2 ^ 100), 1 / 2 ^ 100, 1, -(1 / 2 ^ 100), 1 / 2 ^ 100],
    nPosDotP := 4, nNullDotP := 0, Nature := 1, ClosestPointIndex := 0, pSmoothEdge := none }

/-- Silhouette layer on the square with `DotP = [-0.01f, 1, 1, -1]` and closest point `0`:
the closest value is the negative of the `float` literal `0.01f`. -/
def exFrontThreshold : WXFaceLayer :=
  { pWXFace := exQuad, DotP := [-(5368709 / 536870912), 1, 1, -1],
    nPosDotP := 2, nNullDotP := 0, Nature := 1, ClosestPointIndex := 0, pSmoothEdge := none }

/-! ## The three scans -/

theorem Get0VertexIndexLoop_spec (DotP : List ℚ) :
    ∀ k i, i + k ≤ DotP.length →
      ∃ r, Get0VertexIndexLoop DotP k i = some r ∧
        ((r = UINT_MAX ∧ ∀ m, i ≤ m → m < i + k → DotP[m]? ≠ some 0) ∨
          (i ≤ r ∧ r < i + k ∧ DotP[r]? = some 0 ∧ ∀ m, i ≤ m → m < r → DotP[m]? ≠ some 0)) := by
  intro k
  induction k with
  | zero =>
    intro i _
    exact ⟨UINT_MAX, rfl, Or.inl ⟨rfl, fun m h1 h2 => absurd h2 (by omega)⟩⟩
  | succ k ih =>
    intro i hi
    have hlt : i < DotP.length := by omega
    have hget : DotP[i]? = some DotP[i] := List.getElem?_eq_getElem hlt
    by_cases h0 : DotP[i] = 0
    · refine ⟨i, ?_, Or.inr ⟨le_refl i, by omega, ?_, fun m h1 h2 => absurd h2 (by omega)⟩⟩
      · simp [Get0VertexIndexLoop, hget, h0]
      · rw [hget, h0]
    · obtain ⟨r, hr, hcase⟩ := ih (i + 1) (by omega)
      refine ⟨r, ?_, ?_⟩
      · simp [Get0VertexIndexLoop, hget, h0, hr]
      · have hne : ∀ m, i ≤ m → m < i + 1 → DotP[m]? ≠ some 0 := by
          intro m h1 h2
          have : m = i := by omega
          subst this
          rw [hget]
          simpa using h0
        rcases hcase with ⟨h1, h2⟩ | ⟨h1, h2, h3, h4⟩
        · refine Or.inl ⟨h1, fun m hm1 hm2 => ?_⟩
          by_cases hmi : m < i + 1
          · exact hne m hm1 hmi
          · exact h2 m (by omega) (by omega)
        · refine Or.inr ⟨by omega, by omega, h3, fun m hm1 hm2 => ?_⟩
          by_cases hmi : m < i + 1
          · exact hne m hm1 hmi
          · exact h4 m (by omega) hm2


theorem GetSmoothEdgeIndexLoop_spec (DotP : List ℚ) (n : Nat) (hn : DotP.length = n) :
    ∀ k i, i + k ≤ n →
      ∃ r, GetSmoothEdgeIndexLoop DotP n k i = some r ∧
        ((r = UINT_MAX ∧ ∀ m, i ≤ m → m < i + k →
            ¬ (DotP[m]? = some 0 ∧ DotP[(m + 1) % n]? = some 0)) ∨
          (i ≤ r ∧ r < i + k ∧ DotP[r]? = some 0 ∧ DotP[(r + 1) % n]? = some 0 ∧
            ∀ m, i ≤ m → m < r → ¬ (DotP[m]? = some 0 ∧ DotP[(m + 1) % n]? = some 0))) := by
  intro k
  induction k with
  | zero =>
    intro i _
    exact ⟨UINT_MAX, rfl, Or.inl ⟨rfl, fun m h1 h2 => absurd h2 (by omega)⟩⟩
  | succ k ih =>
    intro i hi
    have hlt : i < DotP.length := by omega
    have hlt2 : (i + 1) % n < DotP.length := by
      rw [hn]; exact Nat.mod_lt _ (by omega)
    have hget : DotP[i]? = some DotP[i] := List.getElem?_eq_getElem hlt
    have hget2 : DotP[(i + 1) % n]? = some DotP[(i + 1) % n] := List.getElem?_eq_getElem hlt2
    by_cases h0 : DotP[i] = 0 ∧ DotP[(i + 1) % n] = 0
    · refine ⟨i, ?_, Or.inr ⟨le_refl i, by omega, ?_, ?_, fun m h1 h2 => absurd h2 (by omega)⟩⟩
      · simp [GetSmoothEdgeIndexLoop, hget, hget2, h0.1, h0.2]
      · rw [hget, h0.1]
      · rw [hget2, h0.2]
    · obtain ⟨r, hr, hcase⟩ := ih (i + 1) (by omega)
      refine ⟨r, ?_, ?_⟩
      · by_cases ha : DotP[i] = 0
        · have hb : DotP[(i + 1) % n] ≠ 0 := fun hb => h0 ⟨ha, hb⟩
          simp [GetSmoothEdgeIndexLoop, hget, hget2, ha, hb, hr]
        · simp [GetSmoothEdgeIndexLoop, hget, ha, hr]
      · have hne : ∀ m, i ≤ m → m < i + 1 →
            ¬ (DotP[m]? = some 0 ∧ DotP[(m + 1) % n]? = some 0) := by
          intro m h1 h2
          have : m = i := by omega
          subst this
          rw [hget, hget2]
          simpa using h0
        rcases hcase with ⟨h1, h2⟩ | ⟨h1, h2, h3, h3b, h4⟩
        · refine Or.inl ⟨h1, fun m hm1 hm2 => ?_⟩
          by_cases hmi : m < i + 1
          · exact hne m hm1 hmi
          · exact h2 m (by omega) (by omega)
        · refine Or.inr ⟨by omega, by omega, h3, h3b, fun m hm1 hm2 => ?_⟩
          by_cases hmi : m < i + 1
          · exact hne m hm1 hmi
          · exact h4 m (by omega) hm2

theorem RetrieveCuspEdgesIndicesLoop_spec (DotP : List ℚ) (n : Nat) (hn : DotP.length = n) :
    ∀ k i out, i + k ≤ n →
      RetrieveCuspEdgesIndicesLoop DotP n k i out =
        some (out ++ (List.range' i k).filter (isCuspEdge DotP n)) := by
  intro k
  induction k with
  | zero => intro i out _; simp [RetrieveCuspEdgesIndicesLoop, floatMulNeg, FLT_UNDERFLOW]
  | succ k ih =>
    intro i out hi
    have hlt : i < DotP.length := by omega
    have hlt2 : (i + 1) % n < DotP.length := by
      rw [hn]; exact Nat.mod_lt _ (by omega)
    have hget : DotP[i]? = some DotP[i] := List.getElem?_eq_getElem hlt
    have hget2 : DotP[(i + 1) % n]? = some DotP[(i + 1) % n] := List.getElem?_eq_getElem hlt2
    have hd : DotP.getD i 0 = DotP[i] := by simp [List.getD, hget]
    have hd2 : DotP.getD ((i + 1) % n) 0 = DotP[(i + 1) % n] := by simp [List.getD, hget2]
    by_cases hc : floatMulNeg DotP[i] DotP[(i + 1) % n] = true
    · have hcusp : isCuspEdge DotP n i = true := by
        unfold isCuspEdge; rw [hd, hd2]; exact hc
      simp only [RetrieveCuspEdgesIndicesLoop, hget, hget2, hc, if_true]
      rw [ih (i + 1) _ (by omega), List.range'_succ, List.filter_cons_of_pos hcusp]
      simp
    · have hcusp : ¬ isCuspEdge DotP n i = true := by
        unfold isCuspEdge; rw [hd, hd2]; exact hc
      have hc' : floatMulNeg DotP[i] DotP[(i + 1) % n] = false := by simpa using hc
      simp only [RetrieveCuspEdgesIndicesLoop, hget, hget2, hc', Bool.false_eq_true, if_false]
      rw [ih (i + 1) _ (by omega), List.range'_succ, List.filter_cons_of_neg hcusp]

theorem RetrieveCuspEdgesIndices_eq (L : WXFaceLayer)
    (hn : L.DotP.length = L.pWXFace.numberOfEdges) (out : List Nat) :
    L.RetrieveCuspEdgesIndices out =
      some (out ++ (List.range L.pWXFace.numberOfEdges).filter
        (isCuspEdge L.DotP L.pWXFace.numberOfEdges)) := by
  unfold WXFaceLayer.RetrieveCuspEdgesIndices
  rw [RetrieveCuspEdgesIndicesLoop_spec L.DotP _ hn _ 0 out (by omega), List.range_eq_range']


theorem isCuspEdge_iff (DotP : List ℚ) (n i : Nat) (hn : DotP.length = n) (hi : i < n) :
    isCuspEdge DotP n i = true ↔
      ∃ a b, DotP[i]? = some a ∧ DotP[(i + 1) % n]? = some b ∧ a * b < -FLT_UNDERFLOW := by
  have hlt : i < DotP.length := by omega
  have hlt2 : (i + 1) % n < DotP.length := by
    rw [hn]; exact Nat.mod_lt _ (by omega)
  have hget : DotP[i]? = some DotP[i] := List.getElem?_eq_getElem hlt
  have hget2 : DotP[(i + 1) % n]? = some DotP[(i + 1) % n] := List.getElem?_eq_getElem hlt2
  have hd : DotP.getD i 0 = DotP[i] := by simp [List.getD, hget]
  have hd2 : DotP.getD ((i + 1) % n) 0 = DotP[(i + 1) % n] := by simp [List.getD, hget2]
  unfold isCuspEdge floatMulNeg
  rw [hd, hd2, hget, hget2, decide_eq_true_iff]
  constructor
  · intro h; exact ⟨_, _, rfl, rfl, h⟩
  · rintro ⟨a, b, ha, hb, h⟩
    cases ha; cases hb; exact h

/-! ## Claims on the scans -/

/-- C5: on a layer with one `DotP` entry per edge, `Get0VertexIndex` returns a value `r`;
when some entry of `DotP` is zero, `r` is the smallest index in `[0, n)` holding a zero; and
`r` is the sentinel (`-1` as `uint`) exactly when no entry of `DotP` is zero. -/
theorem Get0VertexIndex_smallest_zero (L : WXFaceLayer)
    (hlen : L.DotP.length = L.pWXFace.numberOfEdges)
    (hint : L.pWXFace.numberOfEdges ≤ INT_MAX) :
    ∃ r, L.Get0VertexIndex = some r ∧
      ((0 : ℚ) ∈ L.DotP →
        r < L.pWXFace.numberOfEdges ∧ L.DotP[r]? = some 0 ∧
          ∀ m, m < r → L.DotP[m]? ≠ some 0) ∧
      (r = UINT_MAX ↔ (0 : ℚ) ∉ L.DotP) := by
  obtain ⟨r, hr, hcase⟩ :=
    Get0VertexIndexLoop_spec L.DotP L.pWXFace.numberOfEdges 0 (by omega)
  refine ⟨r, hr, ?_, ?_⟩
  · intro hmem
    obtain ⟨j, hj⟩ := List.mem_iff_getElem?.mp hmem
    have hjlt : j < L.DotP.length := by
      by_contra hcon
      rw [List.getElem?_eq_none (by omega)] at hj
      cases hj
    rcases hcase with ⟨_, h2⟩ | ⟨_, h2, h3, h4⟩
    · exact absurd hj (h2 j (Nat.zero_le _) (by omega))
    · exact ⟨by omega, h3, fun m hm => h4 m (Nat.zero_le _) hm⟩
  · constructor
    · intro hru hmem
      rcases hcase with ⟨_, h2⟩ | ⟨_, h2, _, _⟩
      · obtain ⟨j, hj⟩ := List.mem_iff_getElem?.mp hmem
        have hjlt : j < L.DotP.length := by
          by_contra hcon
          rw [List.getElem?_eq_none (by omega)] at hj
          cases hj
        exact h2 j (Nat.zero_le _) (by omega) hj
      · simp only [UINT_MAX, INT_MAX] at hru hint; omega
    · intro hno
      rcases hcase with ⟨h1, _⟩ | ⟨_, _, h3, _⟩
      · exact h1
      · exact absurd (List.mem_iff_getElem?.mpr ⟨r, h3⟩) hno

/-- C6, amended: on a layer with one `DotP` entry per edge, `RetrieveCuspEdgesIndices` called
with an empty vector returns a strictly ascending list whose members are exactly the indices
`i` in `[0, n)` whose product `DotP[i] * DotP[(i+1) mod n]` is negative as a `float`, that
is, whose exact product is below `-2^-150`. Every member has a negative product; an index
whose negative product underflows is missing; and when no adjacent product underflows, the
members are exactly the indices with a negative product. -/
theorem RetrieveCuspEdgesIndices_exact (L : WXFaceLayer)
    (hlen : L.DotP.length = L.pWXFace.numberOfEdges) :
    ∃ out, L.RetrieveCuspEdgesIndices [] = some out ∧
      out.Pairwise (fun i j => i < j) ∧
      (∀ i, i ∈ out ↔
        (i < L.pWXFace.numberOfEdges ∧
          ∃ a b, L.DotP[i]? = some a ∧
            L.DotP[(i + 1) % L.pWXFace.numberOfEdges]? = some b ∧
            a * b < -FLT_UNDERFLOW)) ∧
      (∀ i, i ∈ out →
        ∃ a b, L.DotP[i]? = some a ∧
          L.DotP[(i + 1) % L.pWXFace.numberOfEdges]? = some b ∧ a * b < 0) ∧
      (NoUnderflow L.DotP L.pWXFace.numberOfEdges →
        ∀ i, i ∈ out ↔
          (i < L.pWXFace.numberOfEdges ∧
            ∃ a b, L.DotP[i]? = some a ∧
              L.DotP[(i + 1) % L.pWXFace.numberOfEdges]? = some b ∧ a * b < 0)) := by
  have hmem : ∀ i, i ∈ (List.range L.pWXFace.numberOfEdges).filter
      (isCuspEdge L.DotP L.pWXFace.numberOfEdges) ↔
      (i < L.pWXFace.numberOfEdges ∧
        ∃ a b, L.DotP[i]? = some a ∧
          L.DotP[(i + 1) % L.pWXFace.numberOfEdges]? = some b ∧
          a * b < -FLT_UNDERFLOW) := by
    intro i
    rw [List.mem_filter, List.mem_range]
    constructor
    · rintro ⟨h1, h2⟩
      exact ⟨h1, (isCuspEdge_iff _ _ _ hlen h1).mp h2⟩
    · rintro ⟨h1, h2⟩
      exact ⟨h1, (isCuspEdge_iff _ _ _ hlen h1).mpr h2⟩
  have hpos : (0 : ℚ) < FLT_UNDERFLOW := by
    unfold FLT_UNDERFLOW
    positivity
  refine ⟨_, RetrieveCuspEdgesIndices_eq L hlen [], ?_, ?_, ?_, ?_⟩
  · rw [List.nil_append]
    exact List.Pairwise.filter _ (List.pairwise_lt_range _)
  · intro i
    rw [List.nil_append]
    exact hmem i
  · intro i hi
    rw [List.nil_append] at hi
    obtain ⟨_, a, b, ha, hb, hab⟩ := (hmem i).mp hi
    exact ⟨a, b, ha, hb, by linarith⟩
  · intro hnu i
    rw [List.nil_append, hmem i]
    constructor
    · rintro ⟨h1, a, b, ha, hb, hab⟩
      exact ⟨h1, a, b, ha, hb, by linarith⟩
    · rintro ⟨h1, a, b, ha, hb, hab⟩
      refine ⟨h1, a, b, ha, hb, ?_⟩
      have hga : L.DotP.getD i 0 = a := by
        simp [List.getD, ha]
      have hgb : L.DotP.getD ((i + 1) % L.pWXFace.numberOfEdges) 0 = b := by
        simp [List.getD, hb]
      have := hnu i h1
      rw [hga, hgb] at this
      exact this hab

/-- C7: on a layer with one `DotP` entry per edge, `GetSmoothEdgeIndex` returns a value `r`;
when some index `i` in `[0, n)` has `DotP[i] = 0` and `DotP[(i+1) mod n] = 0`, `r` is the
smallest such index; and `r` is the sentinel (`-1` as `uint`) exactly when there is no such
index. -/
theorem GetSmoothEdgeIndex_smallest_pair (L : WXFaceLayer)
    (hlen : L.DotP.length = L.pWXFace.numberOfEdges)
    (hint : L.pWXFace.numberOfEdges ≤ INT_MAX) :
    ∃ r, L.GetSmoothEdgeIndex = some r ∧
      ((∃ i, i < L.pWXFace.numberOfEdges ∧ L.DotP[i]? = some 0 ∧
          L.DotP[(i + 1) % L.pWXFace.numberOfEdges]? = some 0) →
        r < L.pWXFace.numberOfEdges ∧ L.DotP[r]? = some 0 ∧
          L.DotP[(r + 1) % L.pWXFace.numberOfEdges]? = some 0 ∧
          ∀ m, m < r → ¬ (L.DotP[m]? = some 0 ∧
            L.DotP[(m + 1) % L.pWXFace.numberOfEdges]? = some 0)) ∧
      (r = UINT_MAX ↔
        ¬ ∃ i, i < L.pWXFace.numberOfEdges ∧ L.DotP[i]? = some 0 ∧
          L.DotP[(i + 1) % L.pWXFace.numberOfEdges]? = some 0) := by
  obtain ⟨r, hr, hcase⟩ :=
    GetSmoothEdgeIndexLoop_spec L.DotP L.pWXFace.numberOfEdges hlen
      L.pWXFace.numberOfEdges 0 (by omega)
  refine ⟨r, hr, ?_, ?_⟩
  · rintro ⟨j, hj, hj1, hj2⟩
    rcases hcase with ⟨_, h2⟩ | ⟨_, h2, h3, h3b, h4⟩
    · exact absurd ⟨hj1, hj2⟩ (h2 j (Nat.zero_le _) (by omega))
    · exact ⟨by omega, h3, h3b, fun m hm => h4 m (Nat.zero_le _) hm⟩
  · constructor
    · rintro hru ⟨j, hj, hj1, hj2⟩
      rcases hcase with ⟨_, h2⟩ | ⟨_, h2, _, _, _⟩
      · exact h2 j (Nat.zero_le _) (by omega) ⟨hj1, hj2⟩
      · simp only [UINT_MAX, INT_MAX] at hru hint; omega
    · intro hno
      rcases hcase with ⟨h1, _⟩ | ⟨_, h2, h3, h3b, _⟩
      · exact h1
      · exact absurd ⟨r, by omega, h3, h3b⟩ hno


/-! ## Helper lemmas on the builder -/

theorem getD_eq_getElem? (D : List ℚ) (i : Nat) (hi : i < D.length) :
    D[i]? = some (D.getD i 0) := by
  rw [List.getElem?_eq_getElem hi]
  simp [List.getD, List.getElem?_eq_getElem hi]

theorem getD_mem (D : List ℚ) (i : Nat) (hi : i < D.length) : D.getD i 0 ∈ D :=
  List.mem_iff_getElem?.mpr ⟨i, getD_eq_getElem? D i hi⟩

theorem isCuspEdge_getD (D : List ℚ) (n i : Nat) :
    isCuspEdge D n i = true ↔ D.getD i 0 * D.getD ((i + 1) % n) 0 < -FLT_UNDERFLOW := by
  unfold isCuspEdge floatMulNeg
  exact decide_eq_true_iff

theorem FLT_UNDERFLOW_pos : 0 < FLT_UNDERFLOW := by
  unfold FLT_UNDERFLOW
  positivity

theorem isCuspEdge_neg (D : List ℚ) (n i : Nat) (h : isCuspEdge D n i = true) :
    D.getD i 0 * D.getD ((i + 1) % n) 0 < 0 := by
  have h1 := (isCuspEdge_getD D n i).mp h
  have h2 := FLT_UNDERFLOW_pos
  linarith

theorem isCuspEdge_iff_neg (D : List ℚ) (n i : Nat) (hnu : NoUnderflow D n) (hi : i < n) :
    isCuspEdge D n i = true ↔ D.getD i 0 * D.getD ((i + 1) % n) 0 < 0 :=
  ⟨isCuspEdge_neg D n i, fun h => (isCuspEdge_getD D n i).mpr (hnu i hi h)⟩

theorem mul_neg_trans {a b c : ℚ} (hab : a * b < 0) (hbc : 0 < b * c) : a * c < 0 := by
  have hb : b ≠ 0 := by
    rintro rfl
    simp at hab
  have hbb : 0 < b * b := mul_self_pos.mpr hb
  have h1 : a * c * (b * b) = a * b * (b * c) := by ring
  have h2 : a * c * (b * b) < 0 := by
    rw [h1]; exact mul_neg_of_neg_of_pos hab hbc
  exact neg_of_mul_neg_left h2 hbb.le

theorem interpolate_bounds {a b : ℚ} (hab : a * b < 0) :
    a - b ≠ 0 ∧ 0 ≤ a / (a - b) ∧ a / (a - b) ≤ 1 := by
  rcases lt_trichotomy a 0 with ha | ha | ha
  · have hb : 0 < b := pos_of_mul_neg_right hab ha.le
    refine ⟨by linarith, ?_, ?_⟩
    · exact div_nonneg_of_nonpos ha.le (by linarith)
    · rw [div_le_one_of_neg (by linarith)]; linarith
  · subst ha; simp at hab
  · have hb : b < 0 := neg_of_mul_neg_right hab ha.le
    refine ⟨by linarith, ?_, ?_⟩
    · exact div_nonneg ha.le (by linarith)
    · rw [div_le_one (by linarith)]; linarith

theorem interpolate_cusp (D : List ℚ) (n i : Nat) (hn : D.length = n) (hi : i < n)
    (hc : isCuspEdge D n i = true) :
    interpolate D n i = some (D.getD i 0 / (D.getD i 0 - D.getD ((i + 1) % n) 0)) ∧
      D.getD i 0 - D.getD ((i + 1) % n) 0 ≠ 0 ∧
      0 ≤ D.getD i 0 / (D.getD i 0 - D.getD ((i + 1) % n) 0) ∧
      D.getD i 0 / (D.getD i 0 - D.getD ((i + 1) % n) 0) ≤ 1 := by
  have hb := interpolate_bounds (isCuspEdge_neg D n i hc)
  refine ⟨?_, hb⟩
  have hlt2 : (i + 1) % n < D.length := by
    rw [hn]; exact Nat.mod_lt _ (by omega)
  unfold interpolate
  rw [getD_eq_getElem? D i (by omega), getD_eq_getElem? D _ hlt2]
  simp only [hb.1, if_false]
  rw [if_neg (by omega)]

theorem finishSmoothEdge_eq (S : Nat) (L : WXFaceLayer) (a b : Nat) (ta tb : ℚ)
    (hcl : L.ClosestPointIndex < L.DotP.length) :
    ∃ f, finishSmoothEdge S L a b ta tb =
      some (some ⟨a, b, ta, tb, f⟩, { L with pSmoothEdge := some ⟨a, b, ta, tb, f⟩ }) := by
  unfold finishSmoothEdge
  split
  · rw [List.getElem?_eq_getElem hcl]
    exact ⟨_, rfl⟩
  · exact ⟨_, rfl⟩

theorem cusp_pair_signs (D : List ℚ) (n c0 c1 : Nat) (hn : D.length = n)
    (hzero : (0 : ℚ) ∉ D) (hnu : NoUnderflow D n)
    (hf : (List.range n).filter (isCuspEdge D n) = [c0, c1]) :
    c0 < c1 ∧ c1 < n ∧ isCuspEdge D n c0 = true ∧ isCuspEdge D n c1 = true ∧
      D.getD c0 0 * D.getD c1 0 < 0 := by
  have hmem : ∀ i, (i < n ∧ isCuspEdge D n i = true) ↔ (i = c0 ∨ i = c1) := by
    intro i
    have : i ∈ (List.range n).filter (isCuspEdge D n) ↔
        i ∈ List.range n ∧ isCuspEdge D n i = true := List.mem_filter
    rw [hf, List.mem_range] at this
    simpa using this.symm
  have hsorted : List.Pairwise (fun i j => i < j) [c0, c1] := by
    rw [← hf]; exact List.Pairwise.filter _ (List.pairwise_lt_range _)
  have h01 : c0 < c1 := by simpa using hsorted
  have hc0 := (hmem c0).mpr (Or.inl rfl)
  have hc1 := (hmem c1).mpr (Or.inr rfl)
  refine ⟨h01, hc1.1, hc0.2, hc1.2, ?_⟩
  have key : ∀ j, c0 + 1 ≤ j → j ≤ c1 → D.getD c0 0 * D.getD j 0 < 0 := by
    intro j hj
    induction j, hj using Nat.le_induction with
    | base =>
      intro _
      have h := isCuspEdge_neg D n c0 hc0.2
      rwa [Nat.mod_eq_of_lt (by omega)] at h
    | succ j hj ih =>
      intro hj1
      have hprev := ih (by omega)
      have hnc : ¬ isCuspEdge D n j = true := by
        intro hcj
        rcases (hmem j).mp ⟨by omega, hcj⟩ with h | h <;> omega
      rw [isCuspEdge_iff_neg D n j hnu (by omega), Nat.mod_eq_of_lt (by omega), not_lt] at hnc
      have hj0 : D.getD j 0 ≠ 0 := fun h => hzero (h ▸ getD_mem D j (by omega))
      have hj10 : D.getD (j + 1) 0 ≠ 0 := fun h => hzero (h ▸ getD_mem D (j + 1) (by omega))
      exact mul_neg_trans hprev (lt_of_le_of_ne hnc (mul_ne_zero hj0 hj10).symm)
  exact key c1 (by omega) (le_refl _)


theorem countNull_eq_zero_iff (D : List ℚ) : countNull D = 0 ↔ (0 : ℚ) ∉ D := by
  unfold countNull
  rw [List.countP_eq_zero]
  constructor
  · intro h hmem
    exact absurd (h 0 hmem) (by simp)
  · intro h a ha
    simp only [decide_eq_true_eq]
    rintro rfl
    exact h ha

theorem countPos_ne_zero (D : List ℚ) (h : ∃ x ∈ D, (0 : ℚ) < x) : countPos D ≠ 0 := by
  obtain ⟨x, hx, hpos⟩ := h
  have : 0 < countPos D := List.countP_pos_iff.mpr ⟨x, hx, by simpa using hpos⟩
  omega

theorem countPos_ne_length (D : List ℚ) (h : ∃ x ∈ D, x ≤ (0 : ℚ)) :
    countPos D ≠ D.length := by
  obtain ⟨x, hx, hneg⟩ := h
  intro hcon
  have := (List.countP_eq_length.mp hcon) x hx
  simp only [decide_eq_true_eq] at this
  linarith

/-- C3, amended: two-crossing case. On a consistent layer without cached edge whose `DotP`
has no zero entry, a positive and a non-positive entry, no adjacent product that underflows,
and whose cusp edges are exactly `c0, c1`, `BuildSmoothEdge` builds and caches an edge from a
cusp edge `s` with `DotP[s] > 0` to the other cusp edge `e`, where `DotP[e] < 0`, with both
parameters interpolated. -/
theorem BuildSmoothEdge_two_crossings (S : Nat) (L : WXFaceLayer) (c0 c1 : Nat)
    (hC : L.Consistent) (hnone : L.pSmoothEdge = none)
    (hzero : (0 : ℚ) ∉ L.DotP)
    (hnu : NoUnderflow L.DotP L.pWXFace.numberOfEdges)
    (hpos : ∃ x ∈ L.DotP, (0 : ℚ) < x) (hneg : ∃ x ∈ L.DotP, x ≤ (0 : ℚ))
    (hcusp : L.RetrieveCuspEdgesIndices [] = some [c0, c1]) :
    ∃ s e edge,
      L.BuildSmoothEdge S = some (some edge, { L with pSmoothEdge := some edge }) ∧
      ((s = c0 ∧ e = c1) ∨ (s = c1 ∧ e = c0)) ∧ s ≠ e ∧
      0 < L.DotP.getD s 0 ∧ L.DotP.getD e 0 < 0 ∧
      edge.woea = s ∧ edge.woeb = e ∧
      edge.ta = L.DotP.getD s 0 /
        (L.DotP.getD s 0 - L.DotP.getD ((s + 1) % L.pWXFace.numberOfEdges) 0) ∧
      edge.tb = L.DotP.getD e 0 /
        (L.DotP.getD e 0 - L.DotP.getD ((e + 1) % L.pWXFace.numberOfEdges) 0) := by
  have hlen := hC.length_eq
  have hf : (List.range L.pWXFace.numberOfEdges).filter
      (isCuspEdge L.DotP L.pWXFace.numberOfEdges) = [c0, c1] := by
    have := RetrieveCuspEdgesIndices_eq L hlen []
    rw [hcusp] at this
    simpa using this.symm
  obtain ⟨h01, h1n, hk0, hk1, hprod⟩ := cusp_pair_signs _ _ _ _ hlen hzero hnu hf
  have hnull : L.nNullDotP = 0 := by rw [hC.nNull_eq]; exact (countNull_eq_zero_iff _).mpr hzero
  have hp0 : L.nPosDotP ≠ 0 := by rw [hC.nPos_eq]; exact countPos_ne_zero _ hpos
  have hpl : L.nPosDotP ≠ L.DotP.length := by rw [hC.nPos_eq]; exact countPos_ne_length _ hneg
  have hnn : ¬ L.nNullDotP = L.pWXFace.numberOfEdges := by omega
  have hn0 : ¬ 0 = L.pWXFace.numberOfEdges := by omega
  obtain ⟨hi0, _, _, _⟩ := interpolate_cusp _ _ c0 hlen (by omega) hk0
  obtain ⟨hi1, _, _, _⟩ := interpolate_cusp _ _ c1 hlen h1n hk1
  have hg0 : L.pWXFace.GetOEdge c0 = some c0 := by
    unfold WXFace.GetOEdge; rw [if_pos (by omega)]
  have hg1 : L.pWXFace.GetOEdge c1 = some c1 := by
    unfold WXFace.GetOEdge; rw [if_pos h1n]
  have hd0 := getD_eq_getElem? L.DotP c0 (by omega)
  have hne0 : L.DotP.getD c0 0 ≠ 0 := fun h => hzero (h ▸ getD_mem _ c0 (by omega))
  by_cases hs : 0 < L.DotP.getD c0 0
  · obtain ⟨f, hfin⟩ := finishSmoothEdge_eq S L c0 c1
      (L.DotP.getD c0 0 / (L.DotP.getD c0 0 - L.DotP.getD ((c0 + 1) % L.pWXFace.numberOfEdges) 0))
      (L.DotP.getD c1 0 / (L.DotP.getD c1 0 - L.DotP.getD ((c1 + 1) % L.pWXFace.numberOfEdges) 0))
      hC.closest_lt
    refine ⟨c0, c1, ⟨c0, c1, _, _, f⟩, ?_, Or.inl ⟨rfl, rfl⟩, by omega, hs,
      neg_of_mul_neg_right hprod hs.le, rfl, rfl, rfl, rfl⟩
    unfold WXFaceLayer.BuildSmoothEdge
    simp only [hnone, hnn, hn0, hp0, hpl, hnull, hcusp, hd0, hs, hg0, hg1, hi0, hi1, hfin,
      if_true, if_false, ne_eq, not_false_eq_true, and_self, gt_iff_lt]
  · have hs' : L.DotP.getD c0 0 < 0 := lt_of_le_of_ne (not_lt.mp hs) hne0
    obtain ⟨f, hfin⟩ := finishSmoothEdge_eq S L c1 c0
      (L.DotP.getD c1 0 / (L.DotP.getD c1 0 - L.DotP.getD ((c1 + 1) % L.pWXFace.numberOfEdges) 0))
      (L.DotP.getD c0 0 / (L.DotP.getD c0 0 - L.DotP.getD ((c0 + 1) % L.pWXFace.numberOfEdges) 0))
      hC.closest_lt
    refine ⟨c1, c0, ⟨c1, c0, _, _, f⟩, ?_, Or.inr ⟨rfl, rfl⟩, by omega,
      pos_of_mul_neg_right hprod hs'.le, hs', rfl, rfl, rfl, rfl⟩
    unfold WXFaceLayer.BuildSmoothEdge
    simp only [hnone, hnn, hn0, hp0, hpl, hnull, hcusp, hd0, hs, hg0, hg1, hi0, hi1, hfin,
      if_true, if_false, ne_eq, not_false_eq_true, and_self, gt_iff_lt]


theorem interpolatedAt_cusp (D : List ℚ) (n i : Nat) (hn : D.length = n) (hi : i < n)
    (hc : isCuspEdge D n i = true) :
    interpolatedAt D n (D.getD i 0 / (D.getD i 0 - D.getD ((i + 1) % n) 0)) := by
  obtain ⟨_, h1, h2, h3⟩ := interpolate_cusp D n i hn hi hc
  exact ⟨i, hi, h1, rfl, h2, h3⟩

theorem GetOEdge_lt (F : WXFace) (i : Nat) (hi : i < F.numberOfEdges) :
    F.GetOEdge i = some i := by
  unfold WXFace.GetOEdge; rw [if_pos hi]

theorem countNull_le_length (D : List ℚ) : countNull D ≤ D.length := List.countP_le_length _

theorem Get0VertexIndex_of_mem (L : WXFaceLayer)
    (hlen : L.DotP.length = L.pWXFace.numberOfEdges) (hmem : (0 : ℚ) ∈ L.DotP) :
    ∃ z, L.Get0VertexIndex = some z ∧ z < L.pWXFace.numberOfEdges ∧ L.DotP[z]? = some 0 ∧
      ∀ m, m < z → L.DotP[m]? ≠ some 0 := by
  obtain ⟨r, hr, hcase⟩ :=
    Get0VertexIndexLoop_spec L.DotP L.pWXFace.numberOfEdges 0 (by omega)
  obtain ⟨j, hj⟩ := List.mem_iff_getElem?.mp hmem
  have hjlt : j < L.DotP.length := by
    by_contra hcon
    rw [List.getElem?_eq_none (by omega)] at hj
    cases hj
  rcases hcase with ⟨_, h2⟩ | ⟨_, h2, h3, h4⟩
  · exact absurd hj (h2 j (Nat.zero_le _) (by omega))
  · exact ⟨r, hr, by omega, h3, fun m hm => h4 m (Nat.zero_le _) hm⟩

theorem countNull_pos_mem (D : List ℚ) (h : 0 < countNull D) : (0 : ℚ) ∈ D := by
  by_contra hcon
  have := (countNull_eq_zero_iff D).mpr hcon
  omega

theorem BuildSmoothEdge_cases (S : Nat) (L : WXFaceLayer) (hC : L.Consistent)
    (hnone : L.pSmoothEdge = none) :
    L.BuildSmoothEdge S = some (none, L) ∨
      ∃ a b ta tb f,
        L.BuildSmoothEdge S =
          some (some ⟨a, b, ta, tb, f⟩, { L with pSmoothEdge := some ⟨a, b, ta, tb, f⟩ }) ∧
        a < L.pWXFace.numberOfEdges ∧ b < L.pWXFace.numberOfEdges ∧
        (ta = 0 ∨ interpolatedAt L.DotP L.pWXFace.numberOfEdges ta) ∧
        (tb = 0 ∨ tb = 1 ∨ interpolatedAt L.DotP L.pWXFace.numberOfEdges tb) := by
  have hlen := hC.length_eq
  have hR := RetrieveCuspEdgesIndices_eq L hlen []
  rw [List.nil_append] at hR
  have hmem : ∀ i ∈ (List.range L.pWXFace.numberOfEdges).filter
      (isCuspEdge L.DotP L.pWXFace.numberOfEdges),
      i < L.pWXFace.numberOfEdges ∧ isCuspEdge L.DotP L.pWXFace.numberOfEdges i = true := by
    intro i hi
    simpa [List.mem_filter] using hi
  generalize (List.range L.pWXFace.numberOfEdges).filter
    (isCuspEdge L.DotP L.pWXFace.numberOfEdges) = cs at hR hmem
  unfold WXFaceLayer.BuildSmoothEdge
  simp only [hnone]
  by_cases h1 : L.nNullDotP = L.pWXFace.numberOfEdges
  · left; rw [if_pos h1]
  rw [if_neg h1]
  by_cases h2 : L.nPosDotP ≠ 0 ∧ L.nPosDotP ≠ L.DotP.length ∧ L.nNullDotP = 0
  · rw [if_pos h2, hR]
    rcases cs with _ | ⟨c0, _ | ⟨c1, _ | ⟨c2, t⟩⟩⟩
    · left; rfl
    · left; rfl
    · right
      obtain ⟨hc0n, hk0⟩ := hmem c0 (by simp)
      obtain ⟨hc1n, hk1⟩ := hmem c1 (by simp)
      obtain ⟨hi0, _⟩ := interpolate_cusp _ _ c0 hlen hc0n hk0
      obtain ⟨hi1, _⟩ := interpolate_cusp _ _ c1 hlen hc1n hk1
      have hd0 := getD_eq_getElem? L.DotP c0 (by omega)
      have hp0 := interpolatedAt_cusp _ _ c0 hlen hc0n hk0
      have hp1 := interpolatedAt_cusp _ _ c1 hlen hc1n hk1
      by_cases hs : 0 < L.DotP.getD c0 0
      · obtain ⟨f, hfin⟩ := finishSmoothEdge_eq S L c0 c1
          (L.DotP.getD c0 0 /
            (L.DotP.getD c0 0 - L.DotP.getD ((c0 + 1) % L.pWXFace.numberOfEdges) 0))
          (L.DotP.getD c1 0 /
            (L.DotP.getD c1 0 - L.DotP.getD ((c1 + 1) % L.pWXFace.numberOfEdges) 0))
          hC.closest_lt
        refine ⟨c0, c1, _, _, f, ?_, hc0n, hc1n, Or.inr hp0, Or.inr (Or.inr hp1)⟩
        simp only [hd0, hs, GetOEdge_lt _ _ hc0n, GetOEdge_lt _ _ hc1n, hi0, hi1, hfin,
          if_true, gt_iff_lt]
      · obtain ⟨f, hfin⟩ := finishSmoothEdge_eq S L c1 c0
          (L.DotP.getD c1 0 /
            (L.DotP.getD c1 0 - L.DotP.getD ((c1 + 1) % L.pWXFace.numberOfEdges) 0))
          (L.DotP.getD c0 0 /
            (L.DotP.getD c0 0 - L.DotP.getD ((c0 + 1) % L.pWXFace.numberOfEdges) 0))
          hC.closest_lt
        refine ⟨c1, c0, _, _, f, ?_, hc1n, hc0n, Or.inr hp1, Or.inr (Or.inr hp0)⟩
        simp only [hd0, hs, GetOEdge_lt _ _ hc0n, GetOEdge_lt _ _ hc1n, hi0, hi1, hfin,
          if_false, gt_iff_lt]
    · left; rfl
  rw [if_neg h2]
  by_cases h3 : L.nNullDotP = 1
  · rw [if_pos h3]
    by_cases h4 : L.nPosDotP = 2 ∨ L.nPosDotP = 0
    · left; rw [if_pos h4]
    rw [if_neg h4, hR]
    rcases cs with _ | ⟨c, _ | ⟨c1, t⟩⟩
    · left; rfl
    · right
      obtain ⟨hcn, hk⟩ := hmem c (by simp)
      obtain ⟨hi0, _⟩ := interpolate_cusp _ _ c hlen hcn hk
      have hd0 := getD_eq_getElem? L.DotP c (by omega)
      have hp := interpolatedAt_cusp _ _ c hlen hcn hk
      obtain ⟨z, hz, hzn, _, _⟩ := Get0VertexIndex_of_mem L hlen
        (countNull_pos_mem _ (by rw [← hC.nNull_eq]; omega))
      by_cases hs : 0 < L.DotP.getD c 0
      · obtain ⟨f, hfin⟩ := finishSmoothEdge_eq S L c z
          (L.DotP.getD c 0 /
            (L.DotP.getD c 0 - L.DotP.getD ((c + 1) % L.pWXFace.numberOfEdges) 0)) 0
          hC.closest_lt
        refine ⟨c, z, _, _, f, ?_, hcn, hzn, Or.inr hp, Or.inl rfl⟩
        simp only [hz, hd0, hs, GetOEdge_lt _ _ hcn, GetOEdge_lt _ _ hzn, hi0, hfin,
          if_true, gt_iff_lt]
      · obtain ⟨f, hfin⟩ := finishSmoothEdge_eq S L z c 0
          (L.DotP.getD c 0 /
            (L.DotP.getD c 0 - L.DotP.getD ((c + 1) % L.pWXFace.numberOfEdges) 0))
          hC.closest_lt
        refine ⟨z, c, _, _, f, ?_, hzn, hcn, Or.inl rfl, Or.inr (Or.inr hp)⟩
        simp only [hz, hd0, hs, GetOEdge_lt _ _ hcn, GetOEdge_lt _ _ hzn, hi0, hfin,
          if_false, gt_iff_lt]
    · left; rfl
  rw [if_neg h3]
  by_cases h5 : L.nNullDotP = 2
  · rw [if_pos h5]
    have hnpos : 0 < L.pWXFace.numberOfEdges := by
      have := countNull_le_length L.DotP
      rw [← hC.nNull_eq] at this
      omega
    obtain ⟨r, hr, _⟩ := GetSmoothEdgeIndexLoop_spec L.DotP L.pWXFace.numberOfEdges hlen
      L.pWXFace.numberOfEdges 0 (by omega)
    have hr' : L.GetSmoothEdgeIndex = some r := hr
    rw [hr']
    by_cases hf : L.pWXFace.front = false
    · right
      have ha : toUInt (toInt r + 1) % L.pWXFace.numberOfEdges < L.pWXFace.numberOfEdges :=
        Nat.mod_lt _ hnpos
      have hb : toUInt (toInt r - 1) % L.pWXFace.numberOfEdges < L.pWXFace.numberOfEdges :=
        Nat.mod_lt _ hnpos
      obtain ⟨f, hfin⟩ := finishSmoothEdge_eq S L
        (toUInt (toInt r + 1) % L.pWXFace.numberOfEdges)
        (toUInt (toInt r - 1) % L.pWXFace.numberOfEdges) 0 1 hC.closest_lt
      refine ⟨_, _, 0, 1, f, ?_, ha, hb, Or.inl rfl, Or.inr (Or.inl rfl)⟩
      simp only [hf, if_true, if_neg (Nat.pos_iff_ne_zero.mp hnpos), GetOEdge_lt _ _ ha,
        GetOEdge_lt _ _ hb, hfin]
    · left; simp only [if_neg hf]
  · left; rw [if_neg h5]


theorem finishSmoothEdge_result (S : Nat) (L : WXFaceLayer) (a b : Nat) (ta tb : ℚ)
    (r : Option WXSmoothEdge) (L' : WXFaceLayer)
    (h : finishSmoothEdge S L a b ta tb = some (r, L')) :
    ∃ e, r = some e ∧ L' = { L with pSmoothEdge := some e } := by
  unfold finishSmoothEdge at h
  split at h
  · split at h
    · cases h
    · simp only [Option.some.injEq, Prod.mk.injEq] at h
      exact ⟨_, h.1.symm, h.2.symm⟩
  · simp only [Option.some.injEq, Prod.mk.injEq] at h
    exact ⟨_, h.1.symm, h.2.symm⟩

theorem BuildSmoothEdge_result (S : Nat) (L : WXFaceLayer)
    (r : Option WXSmoothEdge) (L' : WXFaceLayer)
    (h : L.BuildSmoothEdge S = some (r, L')) :
    (r = none ∧ L' = L ∧ L.pSmoothEdge = none) ∨
      ∃ e, r = some e ∧ L' = { L with pSmoothEdge := some e } := by
  unfold WXFaceLayer.BuildSmoothEdge at h
  split at h
  · rename_i e he
    simp only [Option.some.injEq, Prod.mk.injEq] at h
    refine Or.inr ⟨e, h.1.symm, ?_⟩
    rw [← h.2, ← he]
  · rename_i hnone
    have hnull : ∀ {x : Option (Option WXSmoothEdge × WXFaceLayer)},
        x = some (none, L) → x = some (r, L') →
        (r = none ∧ L' = L ∧ L.pSmoothEdge = none) ∨
          ∃ e, r = some e ∧ L' = { L with pSmoothEdge := some e } := by
      intro x hx hx'
      rw [hx] at hx'
      simp only [Option.some.injEq, Prod.mk.injEq] at hx'
      exact Or.inl ⟨hx'.1.symm, hx'.2.symm, hnone⟩
    simp only at h
    repeat' split at h
    all_goals first
      | exact hnull rfl h
      | cases h
      | exact Or.inr (finishSmoothEdge_result _ _ _ _ _ _ _ _ h)


theorem BuildSmoothEdge_cached (S : Nat) (L : WXFaceLayer) (e : WXSmoothEdge)
    (h : L.pSmoothEdge = some e) : L.BuildSmoothEdge S = some (some e, L) := by
  unfold WXFaceLayer.BuildSmoothEdge
  rw [h]

theorem BuildSmoothEdge_returns (S : Nat) (L : WXFaceLayer) (hC : L.Consistent) :
    ∃ r L', L.BuildSmoothEdge S = some (r, L') := by
  cases hp : L.pSmoothEdge with
  | some e => exact ⟨_, _, BuildSmoothEdge_cached S L e hp⟩
  | none =>
    rcases BuildSmoothEdge_cases S L hC hp with h | ⟨a, b, ta, tb, f, h, _⟩
    · exact ⟨_, _, h⟩
    · exact ⟨_, _, h⟩

/-! ## Claims on the builder -/

/-- C4: `BuildSmoothEdge` is idempotent. On a consistent layer the call returns; whenever a
call returns a result `r` and leaves the layer `L'`, a second call on `L'` returns the same
`r` and leaves `L'` unchanged; and once an edge `e` has been built, a later call returns `e`
and changes nothing, whatever `DotP`, the counters and the closest-point index have become. -/
theorem BuildSmoothEdge_idempotent (S : Nat) (L : WXFaceLayer) :
    (L.Consistent → ∃ r L', L.BuildSmoothEdge S = some (r, L')) ∧
    (∀ r L', L.BuildSmoothEdge S = some (r, L') →
      L'.BuildSmoothEdge S = some (r, L') ∧
      ∀ e, r = some e → ∀ (D : List ℚ) (nPos nNull closest : Nat),
        WXFaceLayer.BuildSmoothEdge S
            { L' with DotP := D, nPosDotP := nPos, nNullDotP := nNull,
                      ClosestPointIndex := closest } =
          some (some e, { L' with DotP := D, nPosDotP := nPos, nNullDotP := nNull,
                                  ClosestPointIndex := closest })) := by
  refine ⟨BuildSmoothEdge_returns S L, ?_⟩
  intro r L' h
  rcases BuildSmoothEdge_result S L r L' h with ⟨hr, hL, _⟩ | ⟨e, hr, hL⟩
  · subst hr; subst hL
    exact ⟨h, fun e he => by cases he⟩
  · subst hr
    have hp : L'.pSmoothEdge = some e := by rw [hL]
    refine ⟨BuildSmoothEdge_cached S L' e hp, ?_⟩
    intro e' he' D nPos nNull closest
    cases he'
    exact BuildSmoothEdge_cached S _ e hp

/-- C8: on a consistent layer without cached edge, `BuildSmoothEdge` returns (no read is out
of bounds and no division has a zero divisor), and every edge it builds has `ta` and `tb` in
`[0, 1]`; `ta` is `0` or a quotient `DotP[i] / (DotP[i] - DotP[(i+1) mod n])` with non-zero
divisor, and `tb` is `0`, `1` or such a quotient. -/
theorem BuildSmoothEdge_parameters_in_unit_interval (S : Nat) (L : WXFaceLayer)
    (hC : L.Consistent) (hnone : L.pSmoothEdge = none) :
    ∃ r L', L.BuildSmoothEdge S = some (r, L') ∧
      ∀ e, r = some e →
        (0 ≤ e.ta ∧ e.ta ≤ 1 ∧ 0 ≤ e.tb ∧ e.tb ≤ 1) ∧
        (e.ta = 0 ∨ ∃ i, i < L.pWXFace.numberOfEdges ∧
          L.DotP.getD i 0 - L.DotP.getD ((i + 1) % L.pWXFace.numberOfEdges) 0 ≠ 0 ∧
          e.ta = L.DotP.getD i 0 /
            (L.DotP.getD i 0 - L.DotP.getD ((i + 1) % L.pWXFace.numberOfEdges) 0)) ∧
        (e.tb = 0 ∨ e.tb = 1 ∨ ∃ i, i < L.pWXFace.numberOfEdges ∧
          L.DotP.getD i 0 - L.DotP.getD ((i + 1) % L.pWXFace.numberOfEdges) 0 ≠ 0 ∧
          e.tb = L.DotP.getD i 0 /
            (L.DotP.getD i 0 - L.DotP.getD ((i + 1) % L.pWXFace.numberOfEdges) 0)) := by
  rcases BuildSmoothEdge_cases S L hC hnone with h | ⟨a, b, ta, tb, f, h, _, _, hta, htb⟩
  · exact ⟨_, _, h, fun e he => by cases he⟩
  · refine ⟨_, _, h, ?_⟩
    intro e he
    cases he
    refine ⟨⟨?_, ?_, ?_, ?_⟩, ?_, ?_⟩
    · rcases hta with h0 | ⟨i, _, _, _, h1, _⟩
      · exact h0.ge
      · exact h1
    · rcases hta with h0 | ⟨i, _, _, _, _, h1⟩
      · show ta ≤ 1
        rw [h0]; exact zero_le_one
      · exact h1
    · rcases htb with h0 | h0 | ⟨i, _, _, _, h1, _⟩
      · exact h0.ge
      · show 0 ≤ tb
        rw [h0]; exact zero_le_one
      · exact h1
    · rcases htb with h0 | h0 | ⟨i, _, _, _, _, h1⟩
      · show tb ≤ 1
        rw [h0]; exact zero_le_one
      · exact h0.le
      · exact h1
    · rcases hta with h0 | ⟨i, h1, h2, h3, _, _⟩
      · exact Or.inl h0
      · exact Or.inr ⟨i, h1, h2, h3⟩
    · rcases htb with h0 | h0 | ⟨i, h1, h2, h3, _, _⟩
      · exact Or.inl h0
      · exact Or.inr (Or.inl h0)
      · exact Or.inr (Or.inr ⟨i, h1, h2, h3⟩)

theorem foldl_add_eq (vs : List Vec3f) :
    ∀ acc : Vec3f, vs.foldl Vec3f.add acc =
      ⟨acc.x + (vs.map Vec3f.x).sum, acc.y + (vs.map Vec3f.y).sum,
        acc.z + (vs.map Vec3f.z).sum⟩ := by
  induction vs with
  | nil => intro acc; simp
  | cons v vs ih =>
    intro acc
    rw [List.foldl_cons, ih]
    simp only [Vec3f.add, List.map_cons, List.sum_cons, add_assoc]

/-- C10: on a face with a non-empty vertex list, `ComputeCenter` stores as centre the
component-wise sum of the vertex positions divided by the number of vertices, and changes
nothing else. -/
theorem ComputeCenter_mean (F : WXFace) (hne : F.vertices ≠ []) :
    F.ComputeCenter = some { F with center :=
      ⟨(F.vertices.map Vec3f.x).sum / (F.vertices.length : ℚ),
        (F.vertices.map Vec3f.y).sum / (F.vertices.length : ℚ),
        (F.vertices.map Vec3f.z).sum / (F.vertices.length : ℚ)⟩ } := by
  have hlen : (F.vertices.length : ℚ) ≠ 0 := by
    have : F.vertices.length ≠ 0 := fun h => hne (List.length_eq_zero.mp h)
    exact_mod_cast this
  unfold WXFace.ComputeCenter
  simp only [foldl_add_eq, Vec3f.div, Vec3f.zero, zero_add, if_neg hlen]

theorem ComputeCenter_mean_witness :
    exTriangle.vertices ≠ [] ∧
      exTriangle.ComputeCenter = some { exTriangle with center := ⟨2 / 3, 2 / 3, 0⟩ } := by
  refine ⟨by decide, ?_⟩
  rw [ComputeCenter_mean exTriangle (by decide)]
  norm_num [exTriangle]

/-! ## The examples of the specification -/

/-- C1: edge-on-boundary example. On the back-facing triangle layer with `DotP = [0, 0, 1]`
the smooth-edge index is `0` and `BuildSmoothEdge` builds the edge with start half-edge `1`,
`ta = 0`, `tb = 1` and end half-edge `0`: the unsigned evaluation of `(index - 1) % nedges`
gives `4294967295 % 3 = 0`, not the cyclic predecessor `2`. -/
theorem edgeOnBoundary_triangle_end_halfedge :
    exEdgeOnBoundary.pWXFace.front = false ∧ countNull exEdgeOnBoundary.DotP = 2 ∧
      exEdgeOnBoundary.GetSmoothEdgeIndex = some 0 ∧
      toUInt (toInt 0 - 1) % 3 = 0 ∧
      ∀ S, exEdgeOnBoundary.BuildSmoothEdge S =
        some (some ⟨1, 0, 0, 1, none⟩,
          { exEdgeOnBoundary with pSmoothEdge := some ⟨1, 0, 0, 1, none⟩ }) := by
  refine ⟨rfl, by decide, by decide, by decide, fun S => ?_⟩
  simp [exEdgeOnBoundary, WXFaceLayer.BuildSmoothEdge, WXFaceLayer.GetSmoothEdgeIndex,
    GetSmoothEdgeIndexLoop, exTriangle, WXFace.GetOEdge, toInt, toUInt, finishSmoothEdge]

/-- C2, as stated, fails: on the square layer with `DotP = [1, 0, -1, 1/2]` no call of
`BuildSmoothEdge` returns an edge, so none from half-edge `1` to half-edge `2` with
`tb = 2/3`. -/
theorem oneNullQuad_edge_not_built :
    ¬ ∃ S e L', exOneNullQuad.BuildSmoothEdge S = some (some e, L') ∧
        e.woea = 1 ∧ e.ta = 0 ∧ e.woeb = 2 ∧ e.tb = 2 / 3 := by
  rintro ⟨S, e, L', h, _⟩
  have h0 : exOneNullQuad.BuildSmoothEdge S = some (none, exOneNullQuad) := by
    simp [exOneNullQuad, WXFaceLayer.BuildSmoothEdge, exQuad]
  rw [h0] at h
  cases h

/-- C2, amended: on the square layer with `DotP = [1, 0, -1, 1/2]` (one zero entry, two
positive entries) the cusp-edge list is `[2]` and the zero-vertex index is `1`, and
`BuildSmoothEdge` stops at the test of the positive count against `2`: it returns null and
leaves the layer unchanged. -/
theorem oneNullQuad_returns_null :
    exOneNullQuad.DotP.length = exOneNullQuad.pWXFace.numberOfEdges ∧
      exOneNullQuad.nNullDotP = countNull exOneNullQuad.DotP ∧
      exOneNullQuad.nPosDotP = countPos exOneNullQuad.DotP ∧
      countNull exOneNullQuad.DotP = 1 ∧ countPos exOneNullQuad.DotP = 2 ∧
      exOneNullQuad.RetrieveCuspEdgesIndices [] = some [2] ∧
      exOneNullQuad.Get0VertexIndex = some 1 ∧
      ∀ S, exOneNullQuad.BuildSmoothEdge S = some (none, exOneNullQuad) := by
  refine ⟨rfl, ?_, ?_, ?_, ?_, ?_, by decide, fun S => ?_⟩
  · norm_num [exOneNullQuad, countNull]
  · norm_num [exOneNullQuad, countPos]
  · norm_num [exOneNullQuad, countNull]
  · norm_num [exOneNullQuad, countPos]
  · norm_num [exOneNullQuad, exQuad, WXFaceLayer.RetrieveCuspEdgesIndices,
      RetrieveCuspEdgesIndicesLoop, floatMulNeg, FLT_UNDERFLOW]
  · simp [exOneNullQuad, WXFaceLayer.BuildSmoothEdge, exQuad]

/-! ## Instances on the example layers -/

theorem BuildSmoothEdge_two_crossings_witness :
    NoUnderflow exTwoCrossings.DotP exTwoCrossings.pWXFace.numberOfEdges ∧
      exTwoCrossings.RetrieveCuspEdgesIndices [] = some [0, 2] ∧
      exTwoCrossings.BuildSmoothEdge 1 =
        some (some ⟨0, 2, 1 / 2, 1 / 2, some true⟩,
          { exTwoCrossings with pSmoothEdge := some ⟨0, 2, 1 / 2, 1 / 2, some true⟩ }) ∧
      ∃ s e edge,
        exTwoCrossings.BuildSmoothEdge 1 =
          some (some edge, { exTwoCrossings with pSmoothEdge := some edge }) ∧
        ((s = 0 ∧ e = 2) ∨ (s = 2 ∧ e = 0)) ∧ s ≠ e ∧
        0 < exTwoCrossings.DotP.getD s 0 ∧ exTwoCrossings.DotP.getD e 0 < 0 ∧
        edge.woea = s ∧ edge.woeb = e ∧
        edge.ta = exTwoCrossings.DotP.getD s 0 /
          (exTwoCrossings.DotP.getD s 0 -
            exTwoCrossings.DotP.getD ((s + 1) % exTwoCrossings.pWXFace.numberOfEdges) 0) ∧
        edge.tb = exTwoCrossings.DotP.getD e 0 /
          (exTwoCrossings.DotP.getD e 0 -
            exTwoCrossings.DotP.getD ((e + 1) % exTwoCrossings.pWXFace.numberOfEdges) 0) := by
  have hR : exTwoCrossings.RetrieveCuspEdgesIndices [] = some [0, 2] := by
    norm_num [exTwoCrossings, exQuad, WXFaceLayer.RetrieveCuspEdgesIndices,
      RetrieveCuspEdgesIndicesLoop, floatMulNeg, FLT_UNDERFLOW]
  have hnu : NoUnderflow exTwoCrossings.DotP exTwoCrossings.pWXFace.numberOfEdges := by
    intro i hi h
    have hi4 : i < 4 := hi
    interval_cases i <;> norm_num [exTwoCrossings, exQuad, FLT_UNDERFLOW] at h ⊢
  refine ⟨hnu, hR, ?_, BuildSmoothEdge_two_crossings 1 exTwoCrossings 0 2
    ⟨rfl, by decide, by decide, by decide, by decide⟩ rfl (by decide) hnu
    ⟨1, by decide, by decide⟩ ⟨-1, by decide, by decide⟩ hR⟩
  norm_num [exTwoCrossings, exQuad, WXFaceLayer.BuildSmoothEdge,
    WXFaceLayer.RetrieveCuspEdgesIndices, RetrieveCuspEdgesIndicesLoop, floatMulNeg, FLT_UNDERFLOW, FLT_0_01,
    WXFace.GetOEdge,
    interpolate, finishSmoothEdge]

theorem BuildSmoothEdge_idempotent_witness :
    exTwoCrossings.Consistent ∧
      (∃ r L', exTwoCrossings.BuildSmoothEdge 1 = some (r, L')) ∧
      WXFaceLayer.BuildSmoothEdge 1
          { exTwoCrossings with pSmoothEdge := some ⟨0, 2, 1 / 2, 1 / 2, some true⟩ } =
        some (some ⟨0, 2, 1 / 2, 1 / 2, some true⟩,
          { exTwoCrossings with pSmoothEdge := some ⟨0, 2, 1 / 2, 1 / 2, some true⟩ }) ∧
      WXFaceLayer.BuildSmoothEdge 1
          { exTwoCrossings with
              pSmoothEdge := some ⟨0, 2, 1 / 2, 1 / 2, some true⟩,
              DotP := [0, 0, 0, 0], nPosDotP := 0, nNullDotP := 4, ClosestPointIndex := 3 } =
        some (some ⟨0, 2, 1 / 2, 1 / 2, some true⟩,
          { exTwoCrossings with
              pSmoothEdge := some ⟨0, 2, 1 / 2, 1 / 2, some true⟩,
              DotP := [0, 0, 0, 0], nPosDotP := 0, nNullDotP := 4, ClosestPointIndex := 3 }) := by
  have hC : exTwoCrossings.Consistent := ⟨rfl, by decide, by decide, by decide, by decide⟩
  have hE : exTwoCrossings.BuildSmoothEdge 1 =
      some (some ⟨0, 2, 1 / 2, 1 / 2, some true⟩,
        { exTwoCrossings with pSmoothEdge := some ⟨0, 2, 1 / 2, 1 / 2, some true⟩ }) := by
    norm_num [exTwoCrossings, exQuad, WXFaceLayer.BuildSmoothEdge,
      WXFaceLayer.RetrieveCuspEdgesIndices, RetrieveCuspEdgesIndicesLoop, floatMulNeg, FLT_UNDERFLOW, FLT_0_01,
    WXFace.GetOEdge,
      interpolate, finishSmoothEdge]
  exact ⟨hC, (BuildSmoothEdge_idempotent 1 exTwoCrossings).1 hC,
    ((BuildSmoothEdge_idempotent 1 exTwoCrossings).2 _ _ hE).1,
    ((BuildSmoothEdge_idempotent 1 exTwoCrossings).2 _ _ hE).2 _ rfl [0, 0, 0, 0] 0 4 3⟩

theorem Get0VertexIndex_smallest_zero_witness :
    exOneNullQuad.DotP.length = exOneNullQuad.pWXFace.numberOfEdges ∧
      exOneNullQuad.pWXFace.numberOfEdges ≤ INT_MAX ∧
      exOneNullQuad.Get0VertexIndex = some 1 ∧
      ∃ r, exOneNullQuad.Get0VertexIndex = some r ∧
        ((0 : ℚ) ∈ exOneNullQuad.DotP →
          r < exOneNullQuad.pWXFace.numberOfEdges ∧ exOneNullQuad.DotP[r]? = some 0 ∧
            ∀ m, m < r → exOneNullQuad.DotP[m]? ≠ some 0) ∧
        (r = UINT_MAX ↔ (0 : ℚ) ∉ exOneNullQuad.DotP) :=
  ⟨rfl, by decide, by decide, Get0VertexIndex_smallest_zero exOneNullQuad rfl (by decide)⟩

theorem RetrieveCuspEdgesIndices_exact_witness :
    exTwoCrossings.DotP.length = exTwoCrossings.pWXFace.numberOfEdges ∧
      ∃ out, exTwoCrossings.RetrieveCuspEdgesIndices [] = some out ∧
        out.Pairwise (fun i j => i < j) ∧
        (∀ i, i ∈ out ↔
          (i < exTwoCrossings.pWXFace.numberOfEdges ∧
            ∃ a b, exTwoCrossings.DotP[i]? = some a ∧
              exTwoCrossings.DotP[(i + 1) % exTwoCrossings.pWXFace.numberOfEdges]? = some b ∧
              a * b < -FLT_UNDERFLOW)) ∧
        (∀ i, i ∈ out →
          ∃ a b, exTwoCrossings.DotP[i]? = some a ∧
            exTwoCrossings.DotP[(i + 1) % exTwoCrossings.pWXFace.numberOfEdges]? = some b ∧
            a * b < 0) ∧
        (NoUnderflow exTwoCrossings.DotP exTwoCrossings.pWXFace.numberOfEdges →
          ∀ i, i ∈ out ↔
            (i < exTwoCrossings.pWXFace.numberOfEdges ∧
              ∃ a b, exTwoCrossings.DotP[i]? = some a ∧
                exTwoCrossings.DotP[(i + 1) % exTwoCrossings.pWXFace.numberOfEdges]? =
                  some b ∧
                a * b < 0)) :=
  ⟨rfl, RetrieveCuspEdgesIndices_exact exTwoCrossings rfl⟩

theorem GetSmoothEdgeIndex_smallest_pair_witness :
    exEdgeOnBoundary.DotP.length = exEdgeOnBoundary.pWXFace.numberOfEdges ∧
      exEdgeOnBoundary.pWXFace.numberOfEdges ≤ INT_MAX ∧
      exEdgeOnBoundary.GetSmoothEdgeIndex = some 0 ∧
      ∃ r, exEdgeOnBoundary.GetSmoothEdgeIndex = some r ∧
        ((∃ i, i < exEdgeOnBoundary.pWXFace.numberOfEdges ∧
            exEdgeOnBoundary.DotP[i]? = some 0 ∧
            exEdgeOnBoundary.DotP[(i + 1) % exEdgeOnBoundary.pWXFace.numberOfEdges]? = some 0) →
          r < exEdgeOnBoundary.pWXFace.numberOfEdges ∧ exEdgeOnBoundary.DotP[r]? = some 0 ∧
            exEdgeOnBoundary.DotP[(r + 1) % exEdgeOnBoundary.pWXFace.numberOfEdges]? = some 0 ∧
            ∀ m, m < r → ¬ (exEdgeOnBoundary.DotP[m]? = some 0 ∧
              exEdgeOnBoundary.DotP[(m + 1) % exEdgeOnBoundary.pWXFace.numberOfEdges]? =
                some 0)) ∧
        (r = UINT_MAX ↔
          ¬ ∃ i, i < exEdgeOnBoundary.pWXFace.numberOfEdges ∧
            exEdgeOnBoundary.DotP[i]? = some 0 ∧
            exEdgeOnBoundary.DotP[(i + 1) % exEdgeOnBoundary.pWXFace.numberOfEdges]? = some 0) :=
  ⟨rfl, by decide, by decide, GetSmoothEdgeIndex_smallest_pair exEdgeOnBoundary rfl (by decide)⟩

theorem BuildSmoothEdge_parameters_in_unit_interval_witness :
    exTwoCrossings.Consistent ∧ exTwoCrossings.pSmoothEdge = none ∧
      ∃ r L', exTwoCrossings.BuildSmoothEdge 1 = some (r, L') ∧
        ∀ e, r = some e →
          (0 ≤ e.ta ∧ e.ta ≤ 1 ∧ 0 ≤ e.tb ∧ e.tb ≤ 1) ∧
          (e.ta = 0 ∨ ∃ i, i < exTwoCrossings.pWXFace.numberOfEdges ∧
            exTwoCrossings.DotP.getD i 0 -
              exTwoCrossings.DotP.getD ((i + 1) % exTwoCrossings.pWXFace.numberOfEdges) 0 ≠ 0 ∧
            e.ta = exTwoCrossings.DotP.getD i 0 /
              (exTwoCrossings.DotP.getD i 0 -
                exTwoCrossings.DotP.getD ((i + 1) % exTwoCrossings.pWXFace.numberOfEdges) 0)) ∧
          (e.tb = 0 ∨ e.tb = 1 ∨ ∃ i, i < exTwoCrossings.pWXFace.numberOfEdges ∧
            exTwoCrossings.DotP.getD i 0 -
              exTwoCrossings.DotP.getD ((i + 1) % exTwoCrossings.pWXFace.numberOfEdges) 0 ≠ 0 ∧
            e.tb = exTwoCrossings.DotP.getD i 0 /
              (exTwoCrossings.DotP.getD i 0 -
                exTwoCrossings.DotP.getD ((i + 1) % exTwoCrossings.pWXFace.numberOfEdges) 0)) :=
  ⟨⟨rfl, by decide, by decide, by decide, by decide⟩, rfl,
    BuildSmoothEdge_parameters_in_unit_interval 1 exTwoCrossings
      ⟨rfl, by decide, by decide, by decide, by decide⟩ rfl⟩

/-- C11: on a layer without cached edge whose zero counter equals the number of edges (all
`DotP` entries zero), `BuildSmoothEdge` returns null and leaves the layer, hence its null
cache, as it was. -/
theorem BuildSmoothEdge_all_null (S : Nat) (L : WXFaceLayer)
    (hnone : L.pSmoothEdge = none) (hall : L.nNullDotP = L.pWXFace.numberOfEdges) :
    L.BuildSmoothEdge S = some (none, L) ∧
      ∀ r L', L.BuildSmoothEdge S = some (r, L') → r = none ∧ L'.pSmoothEdge = none := by
  have h : L.BuildSmoothEdge S = some (none, L) := by
    unfold WXFaceLayer.BuildSmoothEdge
    simp only [hnone, if_pos hall]
  refine ⟨h, fun r L' h' => ?_⟩
  rw [h] at h'
  simp only [Option.some.injEq, Prod.mk.injEq] at h'
  exact ⟨h'.1.symm, by rw [← h'.2]; exact hnone⟩

theorem BuildSmoothEdge_all_null_witness :
    exAllZero.pSmoothEdge = none ∧ exAllZero.nNullDotP = exAllZero.pWXFace.numberOfEdges ∧
      countNull exAllZero.DotP = exAllZero.pWXFace.numberOfEdges ∧
      (exAllZero.BuildSmoothEdge 1 = some (none, exAllZero) ∧
        ∀ r L', exAllZero.BuildSmoothEdge 1 = some (r, L') →
          r = none ∧ L'.pSmoothEdge = none) :=
  ⟨rfl, rfl, by decide, BuildSmoothEdge_all_null 1 exAllZero rfl rfl⟩

/-- C12: on a front-facing layer with more than two edges, one `DotP` entry per edge, no
cached edge and exactly two zero entries (counted by `_nNullDotP`), `BuildSmoothEdge` builds
nothing: it returns null and leaves the layer, hence its null cache, as it was. -/
theorem BuildSmoothEdge_front_two_null (S : Nat) (L : WXFaceLayer)
    (hnone : L.pSmoothEdge = none)
    (hlen : L.DotP.length = L.pWXFace.numberOfEdges)
    (hcount : L.nNullDotP = countNull L.DotP) (htwo : countNull L.DotP = 2)
    (hfront : L.pWXFace.front = true) (hn : 2 < L.pWXFace.numberOfEdges) :
    L.BuildSmoothEdge S = some (none, L) := by
  have h2 : L.nNullDotP = 2 := by omega
  have h1 : ¬ L.nNullDotP = L.pWXFace.numberOfEdges := by omega
  have hb : ¬ (L.nPosDotP ≠ 0 ∧ L.nPosDotP ≠ L.DotP.length ∧ L.nNullDotP = 0) := by
    intro h; omega
  have h3 : ¬ L.nNullDotP = 1 := by omega
  obtain ⟨r, hr, _⟩ := GetSmoothEdgeIndexLoop_spec L.DotP L.pWXFace.numberOfEdges hlen
    L.pWXFace.numberOfEdges 0 (by omega)
  have hr' : L.GetSmoothEdgeIndex = some r := hr
  have hf : ¬ L.pWXFace.front = false := by rw [hfront]; decide
  unfold WXFaceLayer.BuildSmoothEdge
  simp only [hnone, if_neg h1, if_neg hb, if_neg h3, if_pos h2, hr', if_neg hf]

theorem BuildSmoothEdge_front_two_null_witness :
    exFrontEdgeOnBoundary.pSmoothEdge = none ∧
      countNull exFrontEdgeOnBoundary.DotP = 2 ∧
      exFrontEdgeOnBoundary.pWXFace.front = true ∧
      exFrontEdgeOnBoundary.BuildSmoothEdge 1 = some (none, exFrontEdgeOnBoundary) :=
  ⟨rfl, by decide, rfl,
    BuildSmoothEdge_front_two_null 1 exFrontEdgeOnBoundary rfl rfl (by decide) (by decide) rfl
      (by decide)⟩

/-- C13: on a layer without cached edge, with one `DotP` entry per edge, whose counters
match no supported case (a zero count `k` with `3 ≤ k < n`, or a zero count `0` with a
positive count `0` or `n`), `BuildSmoothEdge` returns null and leaves the layer unchanged. -/
theorem BuildSmoothEdge_unsupported_counts (S : Nat) (L : WXFaceLayer)
    (hnone : L.pSmoothEdge = none)
    (hlen : L.DotP.length = L.pWXFace.numberOfEdges)
    (hcase : (3 ≤ L.nNullDotP ∧ L.nNullDotP < L.pWXFace.numberOfEdges) ∨
      (L.nNullDotP = 0 ∧ (L.nPosDotP = 0 ∨ L.nPosDotP = L.pWXFace.numberOfEdges))) :
    L.BuildSmoothEdge S = some (none, L) := by
  have hb : ¬ (L.nPosDotP ≠ 0 ∧ L.nPosDotP ≠ L.DotP.length ∧ L.nNullDotP = 0) := by
    intro h; omega
  have h3 : ¬ L.nNullDotP = 1 := by omega
  have h2 : ¬ L.nNullDotP = 2 := by omega
  unfold WXFaceLayer.BuildSmoothEdge
  simp only [hnone]
  by_cases h1 : L.nNullDotP = L.pWXFace.numberOfEdges
  · rw [if_pos h1]
  · rw [if_neg h1, if_neg hb, if_neg h3, if_neg h2]

theorem BuildSmoothEdge_unsupported_counts_witness :
    exThreeNull.pSmoothEdge = none ∧ countNull exThreeNull.DotP = 3 ∧
      exThreeNull.nNullDotP = 3 ∧ exThreeNull.pWXFace.numberOfEdges = 4 ∧
      exThreeNull.BuildSmoothEdge 1 = some (none, exThreeNull) :=
  ⟨rfl, by decide, rfl, rfl,
    BuildSmoothEdge_unsupported_counts 1 exThreeNull rfl rfl (Or.inl ⟨by decide, by decide⟩)⟩

/-! ## The front flag and the two-crossing test -/

theorem BuildSmoothEdge_built_finish (S : Nat) (L : WXFaceLayer) (e : WXSmoothEdge)
    (L' : WXFaceLayer) (hnone : L.pSmoothEdge = none)
    (h : L.BuildSmoothEdge S = some (some e, L')) :
    ∃ a b ta tb, finishSmoothEdge S L a b ta tb = some (some e, L') := by
  unfold WXFaceLayer.BuildSmoothEdge at h
  rw [hnone] at h
  simp only at h
  repeat' split at h
  all_goals first
    | cases h
    | exact ⟨_, _, _, _, h⟩

theorem finishSmoothEdge_front (S : Nat) (L : WXFaceLayer) (a b : Nat) (ta tb : ℚ)
    (e : WXSmoothEdge) (L' : WXFaceLayer)
    (h : finishSmoothEdge S L a b ta tb = some (some e, L')) :
    (L.Nature &&& S ≠ 0 ∧ L.nNullDotP ≠ 2 →
      ∃ d, L.DotP[L.ClosestPointIndex]? = some d ∧
        e.front = some (decide (d + FLT_0_01 > 0))) ∧
    (¬ (L.Nature &&& S ≠ 0 ∧ L.nNullDotP ≠ 2) → e.front = none) := by
  unfold finishSmoothEdge at h
  split at h
  · rename_i hc
    split at h
    · cases h
    · rename_i d hd
      simp only [Option.some.injEq, Prod.mk.injEq] at h
      refine ⟨fun _ => ⟨d, hd, ?_⟩, fun hn => absurd hc hn⟩
      rw [← h.1]
  · rename_i hc
    simp only [Option.some.injEq, Prod.mk.injEq] at h
    refine ⟨fun hp => absurd hp hc, fun _ => ?_⟩
    rw [← h.1]

/-- C14, amended: whenever `BuildSmoothEdge` builds an edge on a layer without cached edge:
if the nature has the `SILHOUETTE` bit and the zero count is not `2`, the front flag of the
edge is assigned, to true exactly when `DotP[_ClosestPointIndex] + 0.01f > 0`, where `0.01f`
is the `float` literal `5368709 / 2^29`, slightly below `1/100`, and to false otherwise; if
the layer is not a silhouette layer or the zero count is `2`, the flag is not assigned. -/
theorem BuildSmoothEdge_front_flag (S : Nat) (L : WXFaceLayer) (e : WXSmoothEdge)
    (L' : WXFaceLayer) (hnone : L.pSmoothEdge = none)
    (h : L.BuildSmoothEdge S = some (some e, L')) :
    (L.Nature &&& S ≠ 0 ∧ L.nNullDotP ≠ 2 →
      ∃ d, L.DotP[L.ClosestPointIndex]? = some d ∧
        (e.front = some true ↔ d + FLT_0_01 > 0) ∧
        (e.front = some false ↔ ¬ d + FLT_0_01 > 0) ∧
        (e.front = some true ∨ e.front = some false)) ∧
    (¬ (L.Nature &&& S ≠ 0 ∧ L.nNullDotP ≠ 2) → e.front = none) := by
  obtain ⟨a, b, ta, tb, hfin⟩ := BuildSmoothEdge_built_finish S L e L' hnone h
  obtain ⟨h1, h2⟩ := finishSmoothEdge_front S L a b ta tb e L' hfin
  refine ⟨fun hc => ?_, h2⟩
  obtain ⟨d, hd, hf⟩ := h1 hc
  refine ⟨d, hd, ?_, ?_, ?_⟩
  · rw [hf]; simp
  · rw [hf]; simp
  · rw [hf]
    by_cases hp : d + FLT_0_01 > 0
    · left; rw [decide_eq_true hp]
    · right; rw [decide_eq_false hp]

theorem BuildSmoothEdge_front_flag_witness :
    exTwoCrossings.pSmoothEdge = none ∧
      exTwoCrossings.BuildSmoothEdge 1 =
        some (some ⟨0, 2, 1 / 2, 1 / 2, some true⟩,
          { exTwoCrossings with pSmoothEdge := some ⟨0, 2, 1 / 2, 1 / 2, some true⟩ }) ∧
      ((exTwoCrossings.Nature &&& 1 ≠ 0 ∧ exTwoCrossings.nNullDotP ≠ 2 →
        ∃ d, exTwoCrossings.DotP[exTwoCrossings.ClosestPointIndex]? = some d ∧
          ((some true : Option Bool) = some true ↔ d + FLT_0_01 > 0) ∧
          ((some true : Option Bool) = some false ↔ ¬ d + FLT_0_01 > 0) ∧
          ((some true : Option Bool) = some true ∨ (some true : Option Bool) = some false)) ∧
      (¬ (exTwoCrossings.Nature &&& 1 ≠ 0 ∧ exTwoCrossings.nNullDotP ≠ 2) →
        (some true : Option Bool) = none)) := by
  have hE : exTwoCrossings.BuildSmoothEdge 1 =
      some (some ⟨0, 2, 1 / 2, 1 / 2, some true⟩,
        { exTwoCrossings with pSmoothEdge := some ⟨0, 2, 1 / 2, 1 / 2, some true⟩ }) := by
    norm_num [exTwoCrossings, exQuad, WXFaceLayer.BuildSmoothEdge,
      WXFaceLayer.RetrieveCuspEdgesIndices, RetrieveCuspEdgesIndicesLoop, floatMulNeg, FLT_UNDERFLOW, FLT_0_01,
    WXFace.GetOEdge,
      interpolate, finishSmoothEdge]
  exact ⟨rfl, hE, BuildSmoothEdge_front_flag 1 exTwoCrossings _ _ rfl hE⟩

theorem interpolate_index (D : List ℚ) (n i : Nat) (hn : D.length = n) (hi : i < n)
    (hc : isCuspEdge D n i = true) :
    ∃ t, i < n ∧ (i + 1) % n < n ∧ interpolate D n i = some t ∧
      t = D.getD i 0 / (D.getD i 0 - D.getD ((i + 1) % n) 0) :=
  ⟨_, hi, Nat.mod_lt _ (by omega), (interpolate_cusp D n i hn hi hc).1, rfl⟩

theorem BuildSmoothEdge_reaches_finish (S : Nat) (L : WXFaceLayer)
    (hlen : L.DotP.length = L.pWXFace.numberOfEdges)
    (hcount : L.nNullDotP = countNull L.DotP) (hnone : L.pSmoothEdge = none) :
    L.BuildSmoothEdge S = some (none, L) ∨
      ∃ a b ta tb,
        L.BuildSmoothEdge S = finishSmoothEdge S L a b ta tb ∧
        a < L.pWXFace.numberOfEdges ∧ b < L.pWXFace.numberOfEdges ∧
        (ta = 0 ∨ ∃ i, i < L.pWXFace.numberOfEdges ∧
          (i + 1) % L.pWXFace.numberOfEdges < L.pWXFace.numberOfEdges ∧
          interpolate L.DotP L.pWXFace.numberOfEdges i = some ta) ∧
        (tb = 0 ∨ tb = 1 ∨ ∃ i, i < L.pWXFace.numberOfEdges ∧
          (i + 1) % L.pWXFace.numberOfEdges < L.pWXFace.numberOfEdges ∧
          interpolate L.DotP L.pWXFace.numberOfEdges i = some tb) := by
  have hR := RetrieveCuspEdgesIndices_eq L hlen []
  rw [List.nil_append] at hR
  have hmem : ∀ i ∈ (List.range L.pWXFace.numberOfEdges).filter
      (isCuspEdge L.DotP L.pWXFace.numberOfEdges),
      i < L.pWXFace.numberOfEdges ∧ isCuspEdge L.DotP L.pWXFace.numberOfEdges i = true := by
    intro i hi
    simpa [List.mem_filter] using hi
  generalize (List.range L.pWXFace.numberOfEdges).filter
    (isCuspEdge L.DotP L.pWXFace.numberOfEdges) = cs at hR hmem
  unfold WXFaceLayer.BuildSmoothEdge
  simp only [hnone]
  by_cases h1 : L.nNullDotP = L.pWXFace.numberOfEdges
  · left; rw [if_pos h1]
  rw [if_neg h1]
  by_cases h2 : L.nPosDotP ≠ 0 ∧ L.nPosDotP ≠ L.DotP.length ∧ L.nNullDotP = 0
  · rw [if_pos h2, hR]
    rcases cs with _ | ⟨c0, _ | ⟨c1, _ | ⟨c2, t⟩⟩⟩
    · left; rfl
    · left; rfl
    · right
      obtain ⟨hc0n, hk0⟩ := hmem c0 (by simp)
      obtain ⟨hc1n, hk1⟩ := hmem c1 (by simp)
      obtain ⟨t0, _, hm0, hi0, _⟩ := interpolate_index _ _ c0 hlen hc0n hk0
      obtain ⟨t1, _, hm1, hi1, _⟩ := interpolate_index _ _ c1 hlen hc1n hk1
      have hd0 := getD_eq_getElem? L.DotP c0 (by omega)
      by_cases hs : 0 < L.DotP.getD c0 0
      · refine ⟨c0, c1, t0, t1, ?_, hc0n, hc1n, Or.inr ⟨c0, hc0n, hm0, hi0⟩,
          Or.inr (Or.inr ⟨c1, hc1n, hm1, hi1⟩)⟩
        simp only [hd0, hs, GetOEdge_lt _ _ hc0n, GetOEdge_lt _ _ hc1n, hi0, hi1,
          if_true, gt_iff_lt]
      · refine ⟨c1, c0, t1, t0, ?_, hc1n, hc0n, Or.inr ⟨c1, hc1n, hm1, hi1⟩,
          Or.inr (Or.inr ⟨c0, hc0n, hm0, hi0⟩)⟩
        simp only [hd0, hs, GetOEdge_lt _ _ hc0n, GetOEdge_lt _ _ hc1n, hi0, hi1,
          if_false, gt_iff_lt]
    · left; rfl
  rw [if_neg h2]
  by_cases h3 : L.nNullDotP = 1
  · rw [if_pos h3]
    by_cases h4 : L.nPosDotP = 2 ∨ L.nPosDotP = 0
    · left; rw [if_pos h4]
    rw [if_neg h4, hR]
    rcases cs with _ | ⟨c, _ | ⟨c1, t⟩⟩
    · left; rfl
    · right
      obtain ⟨hcn, hk⟩ := hmem c (by simp)
      obtain ⟨t0, _, hm0, hi0, _⟩ := interpolate_index _ _ c hlen hcn hk
      have hd0 := getD_eq_getElem? L.DotP c (by omega)
      obtain ⟨z, hz, hzn, _, _⟩ := Get0VertexIndex_of_mem L hlen
        (countNull_pos_mem _ (by rw [← hcount]; omega))
      by_cases hs : 0 < L.DotP.getD c 0
      · refine ⟨c, z, t0, 0, ?_, hcn, hzn, Or.inr ⟨c, hcn, hm0, hi0⟩, Or.inl rfl⟩
        simp only [hz, hd0, hs, GetOEdge_lt _ _ hcn, GetOEdge_lt _ _ hzn, hi0,
          if_true, gt_iff_lt]
      · refine ⟨z, c, 0, t0, ?_, hzn, hcn, Or.inl rfl, Or.inr (Or.inr ⟨c, hcn, hm0, hi0⟩)⟩
        simp only [hz, hd0, hs, GetOEdge_lt _ _ hcn, GetOEdge_lt _ _ hzn, hi0,
          if_false, gt_iff_lt]
    · left; rfl
  rw [if_neg h3]
  by_cases h5 : L.nNullDotP = 2
  · rw [if_pos h5]
    have hnpos : 0 < L.pWXFace.numberOfEdges := by
      have := countNull_le_length L.DotP
      rw [← hcount] at this
      omega
    obtain ⟨r, hr, _⟩ := GetSmoothEdgeIndexLoop_spec L.DotP L.pWXFace.numberOfEdges hlen
      L.pWXFace.numberOfEdges 0 (by omega)
    have hr' : L.GetSmoothEdgeIndex = some r := hr
    rw [hr']
    by_cases hf : L.pWXFace.front = false
    · right
      have ha : toUInt (toInt r + 1) % L.pWXFace.numberOfEdges < L.pWXFace.numberOfEdges :=
        Nat.mod_lt _ hnpos
      have hb : toUInt (toInt r - 1) % L.pWXFace.numberOfEdges < L.pWXFace.numberOfEdges :=
        Nat.mod_lt _ hnpos
      refine ⟨_, _, 0, 1, ?_, ha, hb, Or.inl rfl, Or.inr (Or.inl rfl)⟩
      simp only [hf, if_true, if_neg (Nat.pos_iff_ne_zero.mp hnpos), GetOEdge_lt _ _ ha,
        GetOEdge_lt _ _ hb]
    · left; simp only [if_neg hf]
  · left; rw [if_neg h5]

/-- C19: index safety. On a layer with at least three edges, one `DotP` entry per edge and
a zero counter equal to the number of zero entries (the positive counter plays no part in
the bounds), a call of `BuildSmoothEdge`
either returns the cached edge (no access at all), or returns null, or reaches the
construction of the edge with two half-edge positions `a`, `b` below `n` that `GetOEdge`
accepts and parameters that are literal or come from an interpolation reading `DotP` at `i`
and `(i+1) mod n`, both below `n`. In the one-null case the zero-vertex index is below `n`;
in the two-null case both `(index + 1) % nedges` and `(index - 1) % nedges`, evaluated as
`int` converted to `uint`, are below `n`. -/
theorem BuildSmoothEdge_indices_in_range (S : Nat) (L : WXFaceLayer)
    (hn : 3 ≤ L.pWXFace.numberOfEdges)
    (hlen : L.DotP.length = L.pWXFace.numberOfEdges)
    (hcount : L.nNullDotP = countNull L.DotP) :
    ((∃ e, L.pSmoothEdge = some e ∧ L.BuildSmoothEdge S = some (some e, L)) ∨
      L.BuildSmoothEdge S = some (none, L) ∨
      ∃ a b ta tb,
        L.BuildSmoothEdge S = finishSmoothEdge S L a b ta tb ∧
        a < L.pWXFace.numberOfEdges ∧ b < L.pWXFace.numberOfEdges ∧
        L.pWXFace.GetOEdge a = some a ∧ L.pWXFace.GetOEdge b = some b ∧
        (ta = 0 ∨ ∃ i, i < L.pWXFace.numberOfEdges ∧
          (i + 1) % L.pWXFace.numberOfEdges < L.pWXFace.numberOfEdges ∧
          interpolate L.DotP L.pWXFace.numberOfEdges i = some ta) ∧
        (tb = 0 ∨ tb = 1 ∨ ∃ i, i < L.pWXFace.numberOfEdges ∧
          (i + 1) % L.pWXFace.numberOfEdges < L.pWXFace.numberOfEdges ∧
          interpolate L.DotP L.pWXFace.numberOfEdges i = some tb)) ∧
    (L.nNullDotP = 1 →
      ∃ z, L.Get0VertexIndex = some z ∧ z < L.pWXFace.numberOfEdges) ∧
    (L.nNullDotP = 2 →
      ∃ r, L.GetSmoothEdgeIndex = some r ∧
        toUInt (toInt r + 1) % L.pWXFace.numberOfEdges < L.pWXFace.numberOfEdges ∧
        toUInt (toInt r - 1) % L.pWXFace.numberOfEdges < L.pWXFace.numberOfEdges ∧
        (L.pSmoothEdge = none → L.pWXFace.front = false →
          L.BuildSmoothEdge S =
            finishSmoothEdge S L (toUInt (toInt r + 1) % L.pWXFace.numberOfEdges)
              (toUInt (toInt r - 1) % L.pWXFace.numberOfEdges) 0 1)) := by
  have hnpos : 0 < L.pWXFace.numberOfEdges := by omega
  refine ⟨?_, ?_, ?_⟩
  · cases hp : L.pSmoothEdge with
    | some e => exact Or.inl ⟨e, rfl, BuildSmoothEdge_cached S L e hp⟩
    | none =>
      rcases BuildSmoothEdge_reaches_finish S L hlen hcount hp with
        h | ⟨a, b, ta, tb, h, ha, hb, hta, htb⟩
      · exact Or.inr (Or.inl h)
      · exact Or.inr (Or.inr ⟨a, b, ta, tb, h, ha, hb, GetOEdge_lt _ _ ha,
          GetOEdge_lt _ _ hb, hta, htb⟩)
  · intro h1
    obtain ⟨z, hz, hzn, _, _⟩ := Get0VertexIndex_of_mem L hlen
      (countNull_pos_mem _ (by rw [← hcount]; omega))
    exact ⟨z, hz, hzn⟩
  · intro h2
    obtain ⟨r, hr, _⟩ := GetSmoothEdgeIndexLoop_spec L.DotP L.pWXFace.numberOfEdges hlen
      L.pWXFace.numberOfEdges 0 (by omega)
    have hr' : L.GetSmoothEdgeIndex = some r := hr
    have ha : toUInt (toInt r + 1) % L.pWXFace.numberOfEdges < L.pWXFace.numberOfEdges :=
      Nat.mod_lt _ hnpos
    have hb : toUInt (toInt r - 1) % L.pWXFace.numberOfEdges < L.pWXFace.numberOfEdges :=
      Nat.mod_lt _ hnpos
    refine ⟨r, hr', ha, hb, fun hnone hf => ?_⟩
    have h1 : ¬ L.nNullDotP = L.pWXFace.numberOfEdges := by omega
    have hb2 : ¬ (L.nPosDotP ≠ 0 ∧ L.nPosDotP ≠ L.DotP.length ∧ L.nNullDotP = 0) := by
      intro h; omega
    have h3 : ¬ L.nNullDotP = 1 := by omega
    unfold WXFaceLayer.BuildSmoothEdge
    simp only [hnone, if_neg h1, if_neg hb2, if_neg h3, if_pos h2, hr', hf, if_true,
      if_neg (Nat.pos_iff_ne_zero.mp hnpos), GetOEdge_lt _ _ ha, GetOEdge_lt _ _ hb]

theorem BuildSmoothEdge_indices_in_range_witness :
    3 ≤ exEdgeOnBoundary.pWXFace.numberOfEdges ∧
      exEdgeOnBoundary.DotP.length = exEdgeOnBoundary.pWXFace.numberOfEdges ∧
      exEdgeOnBoundary.nNullDotP = countNull exEdgeOnBoundary.DotP ∧
      exEdgeOnBoundary.nNullDotP = 2 ∧
      ∃ r, exEdgeOnBoundary.GetSmoothEdgeIndex = some r ∧
        toUInt (toInt r + 1) % exEdgeOnBoundary.pWXFace.numberOfEdges <
          exEdgeOnBoundary.pWXFace.numberOfEdges ∧
        toUInt (toInt r - 1) % exEdgeOnBoundary.pWXFace.numberOfEdges <
          exEdgeOnBoundary.pWXFace.numberOfEdges ∧
        (exEdgeOnBoundary.pSmoothEdge = none → exEdgeOnBoundary.pWXFace.front = false →
          exEdgeOnBoundary.BuildSmoothEdge 1 =
            finishSmoothEdge 1 exEdgeOnBoundary
              (toUInt (toInt r + 1) % exEdgeOnBoundary.pWXFace.numberOfEdges)
              (toUInt (toInt r - 1) % exEdgeOnBoundary.pWXFace.numberOfEdges) 0 1) :=
  ⟨by decide, rfl, by decide, rfl,
    (BuildSmoothEdge_indices_in_range 1 exEdgeOnBoundary (by decide) rfl (by decide)).2.2 rfl⟩

/-- C15: on the back-facing square layer with `DotP = [0, 1, 0, -1]` (four edges, exactly
two zero entries, at opposite corners) no edge has both ends at zero and
`GetSmoothEdgeIndex` returns the sentinel; `BuildSmoothEdge` does not test it and builds the
edge from half-edge `(-1 + 1) % 4 = 0` to half-edge `4294967294 % 4 = 2`. -/
theorem oppositeZeros_edge_built_from_sentinel :
    exOppositeZeros.Consistent ∧ exOppositeZeros.pWXFace.front = false ∧
      2 < exOppositeZeros.pWXFace.numberOfEdges ∧
      countNull exOppositeZeros.DotP = 2 ∧
      exOppositeZeros.GetSmoothEdgeIndex = some UINT_MAX ∧
      (¬ ∃ i, i < 4 ∧ exOppositeZeros.DotP[i]? = some 0 ∧
        exOppositeZeros.DotP[(i + 1) % 4]? = some 0) ∧
      ∀ S, exOppositeZeros.BuildSmoothEdge S =
        some (some ⟨0, 2, 0, 1, none⟩,
          { exOppositeZeros with pSmoothEdge := some ⟨0, 2, 0, 1, none⟩ }) := by
  refine ⟨⟨rfl, by decide, by decide, by decide, by decide⟩, rfl, by decide, by decide,
    by decide, by decide, fun S => ?_⟩
  simp [exOppositeZeros, WXFaceLayer.BuildSmoothEdge, WXFaceLayer.GetSmoothEdgeIndex,
    GetSmoothEdgeIndexLoop, exQuad, WXFace.GetOEdge, toInt, toUInt, finishSmoothEdge,
    UINT_MAX]

/-! ## Face construction -/

/-- C17: for a non-empty vertex list, when the base construction returns a face, both
`MakeFace` overloads return that face with its centre set to the component-wise mean of the
positions in `iVertexList`, which is the value `ComputeCenter` computes when the face's
vertex list is `iVertexList`; when the base construction returns null, both return null and
no centre is written. -/
theorem MakeFace_centroid_in_sync (base : List Vec3f → List Bool → Nat → Option WXFace)
    (iVertexList : List Vec3f) (iNormalsList : List Vec3f) (iTexCoordsList : List (ℚ × ℚ))
    (iFaceEdgeMarksList : List Bool) (iMaterialIndex : Nat) (hne : iVertexList ≠ []) :
    (∀ face, base iVertexList iFaceEdgeMarksList iMaterialIndex = some face →
      WXShape.MakeFace base iVertexList iFaceEdgeMarksList iMaterialIndex =
        some (some { face with center :=
          ⟨(iVertexList.map Vec3f.x).sum / (iVertexList.length : ℚ),
            (iVertexList.map Vec3f.y).sum / (iVertexList.length : ℚ),
            (iVertexList.map Vec3f.z).sum / (iVertexList.length : ℚ)⟩ }) ∧
      WXShape.MakeFaceWithNormals base iVertexList iNormalsList iTexCoordsList
          iFaceEdgeMarksList iMaterialIndex =
        some (some { face with center :=
          ⟨(iVertexList.map Vec3f.x).sum / (iVertexList.length : ℚ),
            (iVertexList.map Vec3f.y).sum / (iVertexList.length : ℚ),
            (iVertexList.map Vec3f.z).sum / (iVertexList.length : ℚ)⟩ }) ∧
      (face.vertices = iVertexList →
        face.ComputeCenter =
          some { face with center :=
            ⟨(iVertexList.map Vec3f.x).sum / (iVertexList.length : ℚ),
              (iVertexList.map Vec3f.y).sum / (iVertexList.length : ℚ),
              (iVertexList.map Vec3f.z).sum / (iVertexList.length : ℚ)⟩ })) ∧
    (base iVertexList iFaceEdgeMarksList iMaterialIndex = none →
      WXShape.MakeFace base iVertexList iFaceEdgeMarksList iMaterialIndex = some none ∧
      WXShape.MakeFaceWithNormals base iVertexList iNormalsList iTexCoordsList
          iFaceEdgeMarksList iMaterialIndex = some none) := by
  have hlen : (iVertexList.length : ℚ) ≠ 0 := by
    have : iVertexList.length ≠ 0 := fun h => hne (List.length_eq_zero.mp h)
    exact_mod_cast this
  constructor
  · intro face hb
    have h3 : WXShape.MakeFace base iVertexList iFaceEdgeMarksList iMaterialIndex =
        some (some { face with center :=
          ⟨(iVertexList.map Vec3f.x).sum / (iVertexList.length : ℚ),
            (iVertexList.map Vec3f.y).sum / (iVertexList.length : ℚ),
            (iVertexList.map Vec3f.z).sum / (iVertexList.length : ℚ)⟩ }) := by
      unfold WXShape.MakeFace
      simp only [hb, foldl_add_eq, Vec3f.div, Vec3f.zero, zero_add, if_neg hlen]
    refine ⟨h3, ?_, ?_⟩
    · unfold WXShape.MakeFaceWithNormals WShape.MakeFaceWithNormals
      exact h3
    · intro hv
      unfold WXFace.ComputeCenter
      simp only [hv, foldl_add_eq, Vec3f.div, Vec3f.zero, zero_add, if_neg hlen]
  · intro hb
    have h3 : WXShape.MakeFace base iVertexList iFaceEdgeMarksList iMaterialIndex =
        some none := by
      unfold WXShape.MakeFace
      simp only [hb]
    refine ⟨h3, ?_⟩
    unfold WXShape.MakeFaceWithNormals WShape.MakeFaceWithNormals
    exact h3

theorem MakeFace_centroid_in_sync_witness :
    exTriangle.vertices ≠ [] ∧
      exBaseMakeFace exTriangle.vertices [false, false, false] 0 = some exTriangle ∧
      WXShape.MakeFace exBaseMakeFace exTriangle.vertices [false, false, false] 0 =
        some (some { exTriangle with center := ⟨2 / 3, 2 / 3, 0⟩ }) ∧
      WXShape.MakeFaceWithNormals exBaseMakeFace exTriangle.vertices [] []
          [false, false, false] 0 =
        some (some { exTriangle with center := ⟨2 / 3, 2 / 3, 0⟩ }) ∧
      exTriangle.ComputeCenter = some { exTriangle with center := ⟨2 / 3, 2 / 3, 0⟩ } := by
  have hb : exBaseMakeFace exTriangle.vertices [false, false, false] 0 = some exTriangle := by
    decide
  have h := (MakeFace_centroid_in_sync exBaseMakeFace exTriangle.vertices [] []
    [false, false, false] 0 (by decide)).1 exTriangle hb
  have hm : (⟨(exTriangle.vertices.map Vec3f.x).sum / (exTriangle.vertices.length : ℚ),
      (exTriangle.vertices.map Vec3f.y).sum / (exTriangle.vertices.length : ℚ),
      (exTriangle.vertices.map Vec3f.z).sum / (exTriangle.vertices.length : ℚ)⟩ : Vec3f) =
      ⟨2 / 3, 2 / 3, 0⟩ := by
    norm_num [exTriangle]
  rw [hm] at h
  exact ⟨by decide, hb, h.1, h.2.1, h.2.2 rfl⟩

/-! ## Parity of the cusp edges -/

theorem sign_change_path (f : Nat → Bool) :
    ∀ k, ((List.range k).filter (fun i => f i != f (i + 1))).length % 2 =
      if f 0 = f k then 0 else 1 := by
  intro k
  induction k with
  | zero => simp
  | succ k ih =>
    rw [List.range_succ, List.filter_append, List.length_append]
    have hk : ([k].filter (fun i => f i != f (i + 1))).length =
        if f k = f (k + 1) then 0 else 1 := by
      by_cases h : f k = f (k + 1)
      · simp [h]
      · simp [h]
    rw [hk]
    by_cases h0 : f 0 = f k
    · rw [if_pos h0] at ih
      by_cases h1 : f k = f (k + 1)
      · rw [if_pos h1, if_pos (h0.trans h1)]; omega
      · rw [if_neg h1, if_neg (fun h => h1 (h0.symm.trans h))]; omega
    · rw [if_neg h0] at ih
      by_cases h1 : f k = f (k + 1)
      · rw [if_pos h1, if_neg (fun h => h0 (h.trans h1.symm))]; omega
      · have h2 : f 0 = f (k + 1) := by
          cases hf0 : f 0 <;> cases hfk : f k <;> cases hfk1 : f (k + 1) <;> simp_all
        rw [if_neg h1, if_pos h2]; omega

theorem sign_path_const (f : Nat → Bool) :
    ∀ k, (List.range k).filter (fun i => f i != f (i + 1)) = [] → ∀ j, j ≤ k → f j = f 0 := by
  intro k
  induction k with
  | zero =>
    intro _ j hj
    have : j = 0 := by omega
    rw [this]
  | succ k ih =>
    intro h j hj
    rw [List.range_succ, List.filter_append, List.append_eq_nil] at h
    obtain ⟨h1, h2⟩ := h
    by_cases hjk : j ≤ k
    · exact ih h1 j hjk
    · have hj' : j = k + 1 := by omega
      subst hj'
      have hk := ih h1 k (le_refl k)
      by_cases hc : f k = f (k + 1)
      · rw [← hc]; exact hk
      · exfalso
        simp [hc] at h2

theorem isCuspEdge_eq_sign_change (D : List ℚ) (n i : Nat) (hn : D.length = n)
    (hzero : (0 : ℚ) ∉ D) (hnu : NoUnderflow D n) (hi : i < n) :
    isCuspEdge D n i =
      (decide (0 < D.getD i 0) != decide (0 < D.getD ((i + 1) % n) 0)) := by
  have ha : D.getD i 0 ≠ 0 := fun h => hzero (h ▸ getD_mem D i (by omega))
  have hb : D.getD ((i + 1) % n) 0 ≠ 0 := fun h =>
    hzero (h ▸ getD_mem D ((i + 1) % n) (by rw [hn]; exact Nat.mod_lt _ (by omega)))
  have hiff := isCuspEdge_iff_neg D n i hnu hi
  have hdec : isCuspEdge D n i = decide (D.getD i 0 * D.getD ((i + 1) % n) 0 < 0) := by
    by_cases h : D.getD i 0 * D.getD ((i + 1) % n) 0 < 0
    · rw [decide_eq_true h]; exact hiff.mpr h
    · rw [decide_eq_false h]
      exact Bool.eq_false_iff.mpr (fun hc => h (hiff.mp hc))
  rw [hdec]
  rcases lt_or_gt_of_ne ha with ha' | ha' <;> rcases lt_or_gt_of_ne hb with hb' | hb'
  · rw [decide_eq_false (not_lt.mpr (mul_pos_of_neg_of_neg ha' hb').le),
      decide_eq_false (not_lt.mpr ha'.le), decide_eq_false (not_lt.mpr hb'.le)]
    rfl
  · rw [decide_eq_true (mul_neg_of_neg_of_pos ha' hb'),
      decide_eq_false (not_lt.mpr ha'.le), decide_eq_true hb']
    rfl
  · rw [decide_eq_true (mul_neg_of_pos_of_neg ha' hb'),
      decide_eq_true ha', decide_eq_false (not_lt.mpr hb'.le)]
    rfl
  · rw [decide_eq_false (not_lt.mpr (mul_pos ha' hb').le),
      decide_eq_true ha', decide_eq_true hb']
    rfl

theorem cusp_filter_split (D : List ℚ) (m : Nat) (hn : D.length = m + 1)
    (hzero : (0 : ℚ) ∉ D) (hnu : NoUnderflow D (m + 1)) :
    (List.range (m + 1)).filter (isCuspEdge D (m + 1)) =
      (List.range m).filter
          (fun i => decide (0 < D.getD i 0) != decide (0 < D.getD (i + 1) 0)) ++
        [m].filter (fun _ => decide (0 < D.getD m 0) != decide (0 < D.getD 0 0)) := by
  rw [List.range_succ, List.filter_append]
  congr 1
  · apply List.filter_congr
    intro i hi
    rw [List.mem_range] at hi
    rw [isCuspEdge_eq_sign_change D (m + 1) i hn hzero hnu (by omega),
      Nat.mod_eq_of_lt (by omega)]
  · apply List.filter_congr
    intro i hi
    rw [List.mem_singleton] at hi
    subst hi
    rw [isCuspEdge_eq_sign_change D (i + 1) i hn hzero hnu (by omega), Nat.mod_self]

theorem cusp_count_even (D : List ℚ) (n : Nat) (hn : D.length = n) (hzero : (0 : ℚ) ∉ D)
    (hnu : NoUnderflow D n) :
    ((List.range n).filter (isCuspEdge D n)).length % 2 = 0 := by
  cases n with
  | zero => simp
  | succ m =>
    rw [cusp_filter_split D m hn hzero hnu, List.length_append]
    have hp := sign_change_path (fun i => decide (0 < D.getD i 0)) m
    simp only at hp
    generalize ((List.range m).filter
      (fun i => decide (0 < D.getD i 0) != decide (0 < D.getD (i + 1) 0))).length = c at hp ⊢
    generalize decide (0 < D.getD 0 0) = p at hp ⊢
    generalize decide (0 < D.getD m 0) = q at hp ⊢
    cases p <;> cases q <;> simp at hp ⊢ <;> omega

theorem cusp_count_ne_zero (D : List ℚ) (n : Nat) (hn : D.length = n)
    (hzero : (0 : ℚ) ∉ D) (hnu : NoUnderflow D n) (hpos : ∃ x ∈ D, (0 : ℚ) < x) (hneg : ∃ x ∈ D, x < (0 : ℚ)) :
    (List.range n).filter (isCuspEdge D n) ≠ [] := by
  intro hnil
  cases n with
  | zero =>
    obtain ⟨x, hx, _⟩ := hpos
    rw [List.length_eq_zero.mp hn] at hx
    cases hx
  | succ m =>
    rw [cusp_filter_split D m hn hzero hnu, List.append_eq_nil] at hnil
    have hconst := sign_path_const (fun i => decide (0 < D.getD i 0)) m hnil.1
    simp only at hconst
    obtain ⟨x, hx, hxpos⟩ := hpos
    obtain ⟨y, hy, hyneg⟩ := hneg
    obtain ⟨i, hi⟩ := List.mem_iff_getElem?.mp hx
    obtain ⟨j, hj⟩ := List.mem_iff_getElem?.mp hy
    have hil : i < D.length := by
      by_contra hcon
      rw [List.getElem?_eq_none (by omega)] at hi
      cases hi
    have hjl : j < D.length := by
      by_contra hcon
      rw [List.getElem?_eq_none (by omega)] at hj
      cases hj
    have hxi : D.getD i 0 = x := by
      have := getD_eq_getElem? D i hil
      rw [hi] at this
      exact (Option.some.inj this).symm
    have hyj : D.getD j 0 = y := by
      have := getD_eq_getElem? D j hjl
      rw [hj] at this
      exact (Option.some.inj this).symm
    have h1 := hconst i (by omega)
    have h2 := hconst j (by omega)
    rw [hxi] at h1
    rw [hyj] at h2
    rw [decide_eq_true hxpos] at h1
    rw [decide_eq_false (not_lt.mpr hyneg.le)] at h2
    rw [← h1] at h2
    cases h2

theorem countPos_ne_zero_mem (D : List ℚ) (h : countPos D ≠ 0) : ∃ x ∈ D, (0 : ℚ) < x := by
  have hp : 0 < countPos D := by omega
  obtain ⟨x, hx, hd⟩ := List.countP_pos_iff.mp hp
  exact ⟨x, hx, by simpa using hd⟩

theorem countPos_ne_length_mem (D : List ℚ) (hzero : (0 : ℚ) ∉ D)
    (h : countPos D ≠ D.length) : ∃ x ∈ D, x < (0 : ℚ) := by
  by_contra hcon
  apply h
  apply List.countP_eq_length.mpr
  intro a ha
  simp only [decide_eq_true_eq]
  by_contra hna
  have hne : a ≠ 0 := fun h0 => hzero (h0 ▸ ha)
  exact hcon ⟨a, ha, lt_of_le_of_ne (not_lt.mp hna) hne⟩

theorem BuildSmoothEdge_pair_built (S : Nat) (L : WXFaceLayer) (c0 c1 : Nat)
    (hC : L.Consistent) (hnone : L.pSmoothEdge = none)
    (h1 : ¬ L.nNullDotP = L.pWXFace.numberOfEdges)
    (h2 : L.nPosDotP ≠ 0 ∧ L.nPosDotP ≠ L.DotP.length ∧ L.nNullDotP = 0)
    (hR : L.RetrieveCuspEdgesIndices [] = some [c0, c1]) :
    L.BuildSmoothEdge S ≠ some (none, L) := by
  have hlen := hC.length_eq
  have hf : (List.range L.pWXFace.numberOfEdges).filter
      (isCuspEdge L.DotP L.pWXFace.numberOfEdges) = [c0, c1] := by
    have := RetrieveCuspEdgesIndices_eq L hlen []
    rw [hR] at this
    simpa using this.symm
  have hmem : ∀ i ∈ [c0, c1],
      i < L.pWXFace.numberOfEdges ∧ isCuspEdge L.DotP L.pWXFace.numberOfEdges i = true := by
    intro i hi
    rw [← hf] at hi
    simpa [List.mem_filter] using hi
  intro hB
  unfold WXFaceLayer.BuildSmoothEdge at hB
  simp only [hnone, if_neg h1, if_pos h2, hR] at hB
  obtain ⟨hc0n, hk0⟩ := hmem c0 (by simp)
  obtain ⟨hc1n, hk1⟩ := hmem c1 (by simp)
  obtain ⟨hi0, _⟩ := interpolate_cusp _ _ c0 hlen hc0n hk0
  obtain ⟨hi1, _⟩ := interpolate_cusp _ _ c1 hlen hc1n hk1
  have hd0 := getD_eq_getElem? L.DotP c0 (by omega)
  by_cases hs : 0 < L.DotP.getD c0 0
  · obtain ⟨f, hfin⟩ := finishSmoothEdge_eq S L c0 c1
      (L.DotP.getD c0 0 /
        (L.DotP.getD c0 0 - L.DotP.getD ((c0 + 1) % L.pWXFace.numberOfEdges) 0))
      (L.DotP.getD c1 0 /
        (L.DotP.getD c1 0 - L.DotP.getD ((c1 + 1) % L.pWXFace.numberOfEdges) 0))
      hC.closest_lt
    simp only [hd0, hs, GetOEdge_lt _ _ hc0n, GetOEdge_lt _ _ hc1n, hi0, hi1, hfin,
      if_true, gt_iff_lt] at hB
    cases hB
  · obtain ⟨f, hfin⟩ := finishSmoothEdge_eq S L c1 c0
      (L.DotP.getD c1 0 /
        (L.DotP.getD c1 0 - L.DotP.getD ((c1 + 1) % L.pWXFace.numberOfEdges) 0))
      (L.DotP.getD c0 0 /
        (L.DotP.getD c0 0 - L.DotP.getD ((c0 + 1) % L.pWXFace.numberOfEdges) 0))
      hC.closest_lt
    simp only [hd0, hs, GetOEdge_lt _ _ hc0n, GetOEdge_lt _ _ hc1n, hi0, hi1, hfin,
      if_false, gt_iff_lt] at hB
    cases hB

/-- C18, amended: parity of the cusp edges. On a layer with at least one edge, one `DotP`
entry per edge, no zero entry and no adjacent product that underflows, the cusp-edge scan
returns a list of even length, of length at least
`2` when `DotP` has a positive and a negative entry; and in the two-crossing case
(consistent layer, no cached edge, positive count neither `0` nor `n`) `BuildSmoothEdge`
returns null only when there are at least four cusp edges. -/
theorem RetrieveCuspEdgesIndices_even (S : Nat) (L : WXFaceLayer)
    (hn : 1 ≤ L.pWXFace.numberOfEdges)
    (hlen : L.DotP.length = L.pWXFace.numberOfEdges)
    (hzero : (0 : ℚ) ∉ L.DotP)
    (hnu : NoUnderflow L.DotP L.pWXFace.numberOfEdges) :
    ∃ cs, L.RetrieveCuspEdgesIndices [] = some cs ∧
      Even cs.length ∧
      ((∃ x ∈ L.DotP, (0 : ℚ) < x) → (∃ x ∈ L.DotP, x < (0 : ℚ)) → 2 ≤ cs.length) ∧
      (L.Consistent → L.pSmoothEdge = none → L.nPosDotP ≠ 0 →
        L.nPosDotP ≠ L.pWXFace.numberOfEdges →
        L.BuildSmoothEdge S = some (none, L) → 4 ≤ cs.length) := by
  have hR := RetrieveCuspEdgesIndices_eq L hlen []
  rw [List.nil_append] at hR
  have heven := cusp_count_even L.DotP _ hlen hzero hnu
  have hge : (∃ x ∈ L.DotP, (0 : ℚ) < x) → (∃ x ∈ L.DotP, x < (0 : ℚ)) →
      2 ≤ ((List.range L.pWXFace.numberOfEdges).filter
        (isCuspEdge L.DotP L.pWXFace.numberOfEdges)).length := by
    intro hpos hneg
    have hne := cusp_count_ne_zero L.DotP _ hlen hzero hnu hpos hneg
    have : ((List.range L.pWXFace.numberOfEdges).filter
        (isCuspEdge L.DotP L.pWXFace.numberOfEdges)).length ≠ 0 :=
      fun h => hne (List.length_eq_zero.mp h)
    omega
  generalize (List.range L.pWXFace.numberOfEdges).filter
    (isCuspEdge L.DotP L.pWXFace.numberOfEdges) = cs at hR heven hge
  refine ⟨cs, hR, Nat.even_iff.mpr heven, hge, ?_⟩
  intro hC hnone hp0 hpn hB
  have hnull : L.nNullDotP = 0 := by
    rw [hC.nNull_eq]; exact (countNull_eq_zero_iff _).mpr hzero
  have hpos : ∃ x ∈ L.DotP, (0 : ℚ) < x :=
    countPos_ne_zero_mem _ (by rw [← hC.nPos_eq]; exact hp0)
  have hneg : ∃ x ∈ L.DotP, x < (0 : ℚ) :=
    countPos_ne_length_mem _ hzero (by rw [← hC.nPos_eq, hlen]; exact hpn)
  have h2 := hge hpos hneg
  have hne2 : cs.length ≠ 2 := by
    intro hl
    obtain ⟨c0, c1, hcs⟩ := List.length_eq_two.mp hl
    rw [hcs] at hR
    exact BuildSmoothEdge_pair_built S L c0 c1 hC hnone (by omega)
      ⟨hp0, by rw [hlen]; exact hpn, hnull⟩ hR hB
  omega

theorem RetrieveCuspEdgesIndices_even_witness :
    1 ≤ exFourCrossings.pWXFace.numberOfEdges ∧
      exFourCrossings.DotP.length = exFourCrossings.pWXFace.numberOfEdges ∧
      (0 : ℚ) ∉ exFourCrossings.DotP ∧
      NoUnderflow exFourCrossings.DotP exFourCrossings.pWXFace.numberOfEdges ∧
      ∃ cs, exFourCrossings.RetrieveCuspEdgesIndices [] = some cs ∧
        Even cs.length ∧
        ((∃ x ∈ exFourCrossings.DotP, (0 : ℚ) < x) →
          (∃ x ∈ exFourCrossings.DotP, x < (0 : ℚ)) → 2 ≤ cs.length) ∧
        (exFourCrossings.Consistent → exFourCrossings.pSmoothEdge = none →
          exFourCrossings.nPosDotP ≠ 0 →
          exFourCrossings.nPosDotP ≠ exFourCrossings.pWXFace.numberOfEdges →
          exFourCrossings.BuildSmoothEdge 1 = some (none, exFourCrossings) →
          4 ≤ cs.length) := by
  have hnu : NoUnderflow exFourCrossings.DotP exFourCrossings.pWXFace.numberOfEdges := by
    intro i hi h
    have hi4 : i < 4 := hi
    interval_cases i <;> norm_num [exFourCrossings, exQuad, FLT_UNDERFLOW] at h ⊢
  exact ⟨by decide, rfl, by decide, hnu,
    RetrieveCuspEdgesIndices_even 1 exFourCrossings (by decide) rfl (by decide) hnu⟩

/-! ## Where the `float` tests part from exact arithmetic -/

/-- C3, as stated, fails: on the hexagon layer with
`DotP = [1, -2^-100, 2^-100, 1, -2^-100, 2^-100]` (consistent, no zero entry, positive and
negative entries) the scan returns exactly the two cusp edges `0` and `3`, and
`BuildSmoothEdge` builds the edge from `0` to `3`, yet `DotP[0] > 0` and `DotP[3] > 0`: the
end is not at a cusp edge with a negative value. -/
theorem underflowHexagon_end_positive :
    exUnderflowHexagon.Consistent ∧ exUnderflowHexagon.pSmoothEdge = none ∧
      (0 : ℚ) ∉ exUnderflowHexagon.DotP ∧
      (∃ x ∈ exUnderflowHexagon.DotP, (0 : ℚ) < x) ∧
      (∃ x ∈ exUnderflowHexagon.DotP, x ≤ (0 : ℚ)) ∧
      exUnderflowHexagon.RetrieveCuspEdgesIndices [] = some [0, 3] ∧
      (∃ edge, exUnderflowHexagon.BuildSmoothEdge 1 =
          some (some edge, { exUnderflowHexagon with pSmoothEdge := some edge }) ∧
        edge.woea = 0 ∧ edge.woeb = 3) ∧
      0 < exUnderflowHexagon.DotP.getD 0 0 ∧ ¬ exUnderflowHexagon.DotP.getD 3 0 < 0 := by
  refine ⟨⟨rfl, by decide, ?_, ?_, by decide⟩, rfl, ?_, ⟨1, ?_, by norm_num⟩,
    ⟨-(1 / 2 ^ 100), ?_, by norm_num⟩, ?_, ?_, ?_, ?_⟩
  · norm_num [exUnderflowHexagon, countPos]
  · norm_num [exUnderflowHexagon, countNull]
  · norm_num [exUnderflowHexagon]
  · norm_num [exUnderflowHexagon]
  · norm_num [exUnderflowHexagon]
  · norm_num [exUnderflowHexagon, exHexagon, WXFaceLayer.RetrieveCuspEdgesIndices,
      RetrieveCuspEdgesIndicesLoop, floatMulNeg, FLT_UNDERFLOW]
  · refine ⟨⟨0, 3, 1 / (1 - -(1 / 2 ^ 100)), 1 / (1 - -(1 / 2 ^ 100)), some true⟩, ?_,
      rfl, rfl⟩
    norm_num [exUnderflowHexagon, exHexagon, WXFaceLayer.BuildSmoothEdge,
      WXFaceLayer.RetrieveCuspEdgesIndices, RetrieveCuspEdgesIndicesLoop, floatMulNeg,
      FLT_UNDERFLOW, FLT_0_01, WXFace.GetOEdge, interpolate, finishSmoothEdge]
  · norm_num [exUnderflowHexagon]
  · norm_num [exUnderflowHexagon]

/-- C6, as stated, fails: on the triangle layer with `DotP = [2^-100, -2^-100, -2^-100]`
the indices `0` and `2` have a negative product `DotP[i] * DotP[(i+1) mod 3]`, but the scan
returns the empty list: both products underflow to `-0.0f`. -/
theorem underflowTriangle_cusp_missing :
    exUnderflowTriangle.DotP.length = exUnderflowTriangle.pWXFace.numberOfEdges ∧
      exUnderflowTriangle.RetrieveCuspEdgesIndices [] = some [] ∧
      (0 < exUnderflowTriangle.pWXFace.numberOfEdges ∧
        ∃ a b, exUnderflowTriangle.DotP[0]? = some a ∧
          exUnderflowTriangle.DotP[(0 + 1) % exUnderflowTriangle.pWXFace.numberOfEdges]? =
            some b ∧ a * b < 0) ∧
      (2 < exUnderflowTriangle.pWXFace.numberOfEdges ∧
        ∃ a b, exUnderflowTriangle.DotP[2]? = some a ∧
          exUnderflowTriangle.DotP[(2 + 1) % exUnderflowTriangle.pWXFace.numberOfEdges]? =
            some b ∧ a * b < 0) := by
  refine ⟨rfl, ?_,
    ⟨by decide, (1 : ℚ) / 2 ^ 100, -((1 : ℚ) / 2 ^ 100),
      by simp [exUnderflowTriangle], by simp [exUnderflowTriangle, exTriangle],
      by norm_num⟩,
    ⟨by decide, -((1 : ℚ) / 2 ^ 100), (1 : ℚ) / 2 ^ 100,
      by simp [exUnderflowTriangle], by simp [exUnderflowTriangle, exTriangle],
      by norm_num⟩⟩
  norm_num [exUnderflowTriangle, exTriangle, WXFaceLayer.RetrieveCuspEdgesIndices,
    RetrieveCuspEdgesIndicesLoop, floatMulNeg, FLT_UNDERFLOW]

/-- C14, as stated, fails: on the square layer with `DotP = [-0.01f, 1, 1, -1]`, a silhouette
layer without zero entry whose closest point is `0`, `BuildSmoothEdge` builds an edge with
the front flag false although `DotP[_ClosestPointIndex] + 1/100 > 0`: the sum with the
`float` literal `0.01f` is zero. -/
theorem frontThreshold_flag_false :
    exFrontThreshold.pSmoothEdge = none ∧
      (exFrontThreshold.Nature &&& 1 ≠ 0 ∧ exFrontThreshold.nNullDotP ≠ 2) ∧
      exFrontThreshold.DotP[exFrontThreshold.ClosestPointIndex]? =
        some (-(5368709 / 536870912)) ∧
      (-(5368709 / 536870912) : ℚ) + 1 / 100 > 0 ∧
      ∃ e, exFrontThreshold.BuildSmoothEdge 1 =
          some (some e, { exFrontThreshold with pSmoothEdge := some e }) ∧
        e.front = some false := by
  refine ⟨rfl, ⟨by decide, by decide⟩, rfl, by norm_num,
    ⟨2, 0, 1 / 2,
      -(5368709 / 536870912) / (-(5368709 / 536870912) - 1), some false⟩, ?_, rfl⟩
  norm_num [exFrontThreshold, exQuad, WXFaceLayer.BuildSmoothEdge,
    WXFaceLayer.RetrieveCuspEdgesIndices, RetrieveCuspEdgesIndicesLoop, floatMulNeg,
    FLT_UNDERFLOW, FLT_0_01, WXFace.GetOEdge, interpolate, finishSmoothEdge]

/-- C18, as stated, fails: on the triangle layer with `DotP = [2^-100, -2^-100, 1]` (three
edges, no zero entry) the scan returns the single cusp edge `1`, an odd number; and on the
layer with `DotP = [2^-100, -2^-100, -2^-100]`, in the two-crossing case, it returns no cusp
edge and `BuildSmoothEdge` returns null with fewer than four cusp edges. -/
theorem underflowOdd_one_cusp :
    1 ≤ exUnderflowOdd.pWXFace.numberOfEdges ∧
      exUnderflowOdd.DotP.length = exUnderflowOdd.pWXFace.numberOfEdges ∧
      (0 : ℚ) ∉ exUnderflowOdd.DotP ∧
      exUnderflowOdd.RetrieveCuspEdgesIndices [] = some [1] ∧
      ¬ Even ([1] : List Nat).length ∧
      exUnderflowTriangle.Consistent ∧ (0 : ℚ) ∉ exUnderflowTriangle.DotP ∧
      exUnderflowTriangle.nPosDotP ≠ 0 ∧
      exUnderflowTriangle.nPosDotP ≠ exUnderflowTriangle.pWXFace.numberOfEdges ∧
      exUnderflowTriangle.RetrieveCuspEdgesIndices [] = some [] ∧
      exUnderflowTriangle.BuildSmoothEdge 1 = some (none, exUnderflowTriangle) := by
  refine ⟨by decide, rfl, ?_, ?_, by decide, ⟨rfl, by decide, ?_, ?_, by decide⟩, ?_,
    by decide, by decide, ?_, ?_⟩
  · norm_num [exUnderflowOdd]
  · norm_num [exUnderflowOdd, exTriangle, WXFaceLayer.RetrieveCuspEdgesIndices,
      RetrieveCuspEdgesIndicesLoop, floatMulNeg, FLT_UNDERFLOW]
  · norm_num [exUnderflowTriangle, countPos]
  · norm_num [exUnderflowTriangle, countNull]
  · norm_num [exUnderflowTriangle]
  · norm_num [exUnderflowTriangle, exTriangle, WXFaceLayer.RetrieveCuspEdgesIndices,
      RetrieveCuspEdgesIndicesLoop, floatMulNeg, FLT_UNDERFLOW]
  · norm_num [exUnderflowTriangle, exTriangle, WXFaceLayer.BuildSmoothEdge,
      WXFaceLayer.RetrieveCuspEdgesIndices, RetrieveCuspEdgesIndicesLoop, floatMulNeg,
      FLT_UNDERFLOW]

end Freestyle
